import Mathlib

/-!
# Anaconda: a verification development

A shallow embedding of the Anaconda compiler front end and of three AST node
methods, followed by theorems about them.

* `src/parser/anacondaparser.cpp`: the recursive-descent parser
  (`Anaconda.AnacondaParser`).
* `src/ast/structuredefinitionnode.cpp`: the recursive-structure check.
* `src/ast/assemblynode.cpp`: the raw-assembly escape node.
* `src/ast/expr/op/bitwiserightshiftnode.cpp`: the unimplemented operator.

Conventions of the embedding.

* A C++ `std::string` is a `String`; the parser input is the list of its
  characters.
* The input cursor is represented by the text that is still to be read. For a
  fixed input the remaining text and the offset determine each other, so two
  cursors are equal exactly when the remaining texts are equal.
* A nullable pointer is an `Option`; `nullptr` is `none`.
* A production that contains a `while (true)` loop, or that takes part in the
  recursion of the expression grammar, takes a budget (`fuel`) and returns
  `none` when the budget is used up; `some (r, s)` means that the production
  returned `r` and left the cursor at `s`.
* A method that can throw returns the fault (or `ok`) together with the
  writer state the call leaves behind.
-/

namespace Anaconda

/-! ## Type descriptors -/

mutual
/-- The type descriptors (`DataTypeBase` and its `DataType<...>` instances):
`DATATYPE_VOID`, `DATATYPE_U8`, `DATATYPE_STRUCT_FORWARD` with the structure
name, and the resolved structure of the data model. -/
inductive DataTypeBase where
  | void
  | u8
  | structForward (name : String)
  | struct (name : String) (fields : FieldList)
  deriving DecidableEq
/-- The fields of a resolved structure descriptor. -/
inductive FieldList where
  | nil
  | cons (head : Field) (tail : FieldList)
  deriving DecidableEq
/-- A field of a structure: its name and its type descriptor. -/
inductive Field where
  | mk (name : String) (type : DataTypeBase)
  deriving DecidableEq
end

/-- The accessor `Field::getName`. -/
def Field.getName : Field → String
  | .mk name _ => name

/-- The accessor `Field::getType`. -/
def Field.getType : Field → DataTypeBase
  | .mk _ type => type

/-- Modelled from the spec: `DataTypeBase::equals` is declared in
`types/datatype.h`, which is not among the sources. The data model says that
equality of descriptors is structural: same variant and same payload. -/
def DataTypeBase.equals (a b : DataTypeBase) : Bool :=
  decide (a = b)

/-! ## Syntax trees built by the parser -/

/-- The `std::map<std::string, DataTypeBase*>` that `funcpar` fills: the
entries in key order, one entry per key. -/
abbrev ParameterMap := List (String × DataTypeBase)

/-- The order of `std::string` keys, on the characters: lexicographic by
character code, a proper start of a string coming before the string. -/
def lexLess : List Char → List Char → Bool
  | _, [] => false
  | [], _ :: _ => true
  | a :: as, b :: bs =>
    if a.toNat < b.toNat then true
    else if b.toNat < a.toNat then false
    else lexLess as bs

/-- The assignment `parameters[k] = v` on a `std::map`: the entry of an
existing key is overwritten, a new key is inserted at its place in key
order. -/
def ParameterMap.assign : ParameterMap → String → DataTypeBase → ParameterMap
  | [], k, v => [(k, v)]
  | (k', v') :: rest, k, v =>
    if k = k' then (k, v) :: rest
    else if lexLess k.data k'.data then (k, v) :: (k', v') :: rest
    else (k', v') :: ParameterMap.assign rest k v

/-- The node `FunctionParameters`, constructed from the parameter map. -/
structure FunctionParameters where
  parameters : ParameterMap
  deriving DecidableEq

/-- The expression nodes. `NegateNode` and `FunctionCallNode` are constructed
from pointers that the parser does not check, so their children are
nullable; the children of the binary operators are only ever non-null. The
arguments of a call (`FunctionArguments`) are the vector of argument
expressions. -/
inductive ExpressionNode where
  | variable (name : String)
  | functionCall (name : String) (args : Option (List ExpressionNode))
  | negate (node : Option ExpressionNode)
  | add (lhs rhs : ExpressionNode)
  | sub (lhs rhs : ExpressionNode)
  | mul (lhs rhs : ExpressionNode)
  | div (lhs rhs : ExpressionNode)
  | mod (lhs rhs : ExpressionNode)

mutual
/-- The statement nodes the parser can build: only `FunctionDeclaration`. -/
inductive StatementNode where
  | functionDeclaration (name : String) (parameters : FunctionParameters)
      (rtype : DataTypeBase) (list : BlockNode)
/-- The node `BlockNode`, holding a nullable statement list. -/
inductive BlockNode where
  | mk (list : Option StatementListNode)
/-- The node `StatementListNode(list, node)`: the nullable list built so far
and the statement added to it. -/
inductive StatementListNode where
  | mk (list : Option StatementListNode) (node : StatementNode)
end

/-- The statements of a statement list in insertion order. -/
def StatementListNode.toList : StatementListNode → List StatementNode
  | .mk none node => [node]
  | .mk (some list) node => list.toList ++ [node]

/-! ## The lexical primitives of the base class `Parser` -/

/-- The input cursor: the text not yet consumed. -/
abbrev Cursor := List Char

namespace Parser

/-- Modelled from the spec: `Parser::whitespace` is declared in
`parser/parser.h`, which is not among the sources. It skips zero or more
blank characters and reports whether any was skipped. -/
def whitespace (s : Cursor) : Bool × Cursor :=
  (match s with
   | c :: _ => c.isWhitespace
   | [] => false,
   s.dropWhile Char.isWhitespace)

/-- Modelled from the spec: `Parser::expect(char)`, not among the sources.
It consumes exactly this character, else fails and leaves the cursor
untouched. -/
def expect (c : Char) (s : Cursor) : Bool × Cursor :=
  match s with
  | d :: t => if d = c then (true, t) else (false, s)
  | [] => (false, s)

/-- Modelled from the spec: `Parser::expect(const char*)`, not among the
sources. It consumes exactly this literal, else fails and leaves the cursor
untouched. -/
def expectStr (token : String) (s : Cursor) : Bool × Cursor :=
  if token.data.isPrefixOf s then (true, s.drop token.data.length) else (false, s)

/-- Modelled from the spec: `Parser::expectLetter`, not among the sources.
It consumes one letter, else fails and leaves the cursor untouched (an
identifier is "one letter followed by letters/underscores"). -/
def expectLetter (s : Cursor) : Bool × Cursor :=
  match s with
  | d :: t => if d.isAlpha then (true, t) else (false, s)
  | [] => (false, s)

/-- Modelled from the spec: `Parser::peek`, not among the sources. It
inspects the next character without consuming it; there is none at the end
of the input. -/
def peek (s : Cursor) : Option Char :=
  s.head?

/-- Modelled from the spec: `Parser::atEnd`, not among the sources: the
cursor is at the end of the input. -/
def atEnd (s : Cursor) : Bool :=
  s.isEmpty

/-- Modelled from the spec: `Parser::save`, not among the sources: the
checkpoint is the cursor. -/
def save (s : Cursor) : Cursor :=
  s

/-- Modelled from the spec: `Parser::restore`, not among the sources: the
cursor is set back to exactly the saved position. -/
def restore (state : Cursor) : Cursor :=
  state

/-- Modelled from the spec: `Parser::beginCapture`, not among the sources:
it remembers where the captured text starts. -/
def beginCapture (s : Cursor) : Cursor :=
  s

/-- Modelled from the spec: `Parser::endCapture`, not among the sources: the
text consumed between the start of the capture and the cursor. -/
def endCapture (start s : Cursor) : String :=
  String.mk (start.take (start.length - s.length))

end Parser

/-! ## The parser `AnacondaParser` -/

namespace AnacondaParser

open Parser

/-- The loop `while(expectLetter() || expect('_')) continue;` of `id`. -/
def idLoop : Cursor → Cursor
  | [] => []
  | c :: t =>
    if (expectLetter (c :: t)).1 || (expect '_' (c :: t)).1 then idLoop t else c :: t

/-- The production `AnacondaParser::id`. -/
def id (s : Cursor) : String × Cursor :=
  let start := beginCapture s
  match expectLetter s with
  | (false, s1) => ("", s1)
  | (true, s1) =>
    let s2 := idLoop s1
    (endCapture start s2, s2)

/-- The production `AnacondaParser::type`. -/
def type (s : Cursor) : Option DataTypeBase × Cursor :=
  let s1 := (whitespace s).2
  match expectStr "u8" s1 with
  | (true, s2) => (some DataTypeBase.u8, s2)
  | (false, s2) =>
    match id s2 with
    | (name, s3) =>
      if name = "" then (none, s3) else (some (DataTypeBase.structForward name), s3)

/-- The production `AnacondaParser::ifstat`: both paths return `nullptr`. -/
def ifstat (s : Cursor) : Option StatementNode × Cursor :=
  let s1 := (whitespace s).2
  match expectStr "if" s1 with
  | (false, s2) => (none, s2)
  | (true, s2) =>
    match whitespace s2 with
    | (true, s3) => (none, s3)
    | (false, s3) => (none, s3)

/-- The production `AnacondaParser::statement`. -/
def statement (s : Cursor) : Option StatementNode × Cursor :=
  ifstat s

/-- The loop of `AnacondaParser::statlist`. -/
def statlistLoop : Nat → Option StatementListNode → Cursor →
    Option (Option StatementListNode × Cursor)
  | 0, _, _ => none
  | fuel + 1, list, s =>
    match statement s with
    | (none, s1) => some (list, s1)
    | (some node, s1) => statlistLoop fuel (some (StatementListNode.mk list node)) s1

/-- The production `AnacondaParser::statlist`. -/
def statlist (fuel : Nat) (s : Cursor) : Option (Option StatementListNode × Cursor) :=
  statlistLoop fuel none s

/-- The production `AnacondaParser::block`. -/
def block (fuel : Nat) (s : Cursor) : Option (Option BlockNode × Cursor) :=
  let s1 := (whitespace s).2
  match expect '{' s1 with
  | (false, s2) => some (none, s2)
  | (true, s2) =>
    match statlist fuel s2 with
    | none => none
    | some (list, s3) =>
      let s4 := (whitespace s3).2
      match expect '}' s4 with
      | (false, s5) => some (none, s5)
      | (true, s5) => some (some (BlockNode.mk list), s5)

/-- The loop of `AnacondaParser::funcpar`. -/
def funcparLoop : Nat → ParameterMap → Cursor →
    Option (Option FunctionParameters × Cursor)
  | 0, _, _ => none
  | fuel + 1, parameters, s =>
    let s1 := (whitespace s).2
    match type s1 with
    | (none, s2) => some (none, s2)
    | (some partype, s2) =>
      match whitespace s2 with
      | (false, s3) => some (none, s3)
      | (true, s3) =>
        match id s3 with
        | (parname, s4) =>
          if parname = "" then some (none, s4)
          else
            let parameters1 := parameters.assign parname partype
            let s5 := (whitespace s4).2
            match expect ')' s5 with
            | (true, s6) => some (some (FunctionParameters.mk parameters1), s6)
            | (false, s6) =>
              match expect ',' s6 with
              | (true, s7) => funcparLoop fuel parameters1 s7
              | (false, s7) => some (none, s7)

/-- The production `AnacondaParser::funcpar`. -/
def funcpar (fuel : Nat) (s : Cursor) : Option (Option FunctionParameters × Cursor) :=
  let s1 := (whitespace s).2
  match expect '(' s1 with
  | (false, s2) => some (none, s2)
  | (true, s2) => funcparLoop fuel [] s2

/-- The production `AnacondaParser::funcdecl`. -/
def funcdecl (fuel : Nat) (s : Cursor) : Option (Option StatementNode × Cursor) :=
  let s1 := (whitespace s).2
  match expectStr "func" s1 with
  | (false, s2) => some (none, s2)
  | (true, s2) =>
    match whitespace s2 with
    | (false, s3) => some (none, s3)
    | (true, s3) =>
      match id s3 with
      | (name, s4) =>
        if name = "" then some (none, s4)
        else
          match funcpar fuel s4 with
          | none => none
          | some (none, s5) => some (none, s5)
          | some (some parameters, s5) =>
            let s6 := (whitespace s5).2
            let rtype : Option DataTypeBase × Cursor :=
              match expectStr "->" s6 with
              | (true, s7) => type s7
              | (false, s7) => (some DataTypeBase.void, s7)
            match rtype with
            | (none, s8) => some (none, s8)
            | (some rtype1, s8) =>
              match block fuel s8 with
              | none => none
              | some (none, s9) => some (none, s9)
              | some (some list, s9) =>
                some (some (StatementNode.functionDeclaration name parameters rtype1 list), s9)

/-- The loop of `AnacondaParser::unit`. -/
def unitLoop : Nat → Option StatementListNode → Cursor →
    Option (Option StatementListNode × Cursor)
  | 0, _, _ => none
  | fuel + 1, list, s =>
    match funcdecl (fuel + 1) s with
    | none => none
    | some (none, s1) => some (list, s1)
    | some (some node, s1) => unitLoop fuel (some (StatementListNode.mk list node)) s1

/-- The production `AnacondaParser::unit`. -/
def unit (fuel : Nat) (s : Cursor) : Option (Option StatementListNode × Cursor) :=
  unitLoop fuel none s

/-- The entry point `AnacondaParser::parse`, run with a given budget. -/
def parseFuel (fuel : Nat) (input : Cursor) : Option (Option StatementListNode) :=
  match unit fuel input with
  | none => none
  | some (node, s1) =>
    let s2 := (whitespace s1).2
    if !atEnd s2 then some none else some node

/-- The entry point `AnacondaParser::parse` on the input the parser was
constructed with. Every turn of a loop that goes on has consumed a character,
so one more than the length of the input is a sufficient budget. -/
def parse (input : String) : Option (Option StatementListNode) :=
  parseFuel (input.data.length + 1) input.data

/-- The production `AnacondaParser::variable`. -/
def variable_ (s : Cursor) : Option ExpressionNode × Cursor :=
  let s1 := (whitespace s).2
  match id s1 with
  | (name, s2) =>
    if name = "" then (none, s2) else (some (ExpressionNode.variable name), s2)

mutual
/-- The production `AnacondaParser::expr`. -/
def expr : Nat → Cursor → Option (Option ExpressionNode × Cursor)
  | 0, _ => none
  | fuel + 1, s => sum fuel s
/-- The production `AnacondaParser::sum`. -/
def sum : Nat → Cursor → Option (Option ExpressionNode × Cursor)
  | 0, _ => none
  | fuel + 1, s =>
    match product fuel s with
    | none => none
    | some (none, s1) => some (none, s1)
    | some (some lhs, s1) => sumLoop fuel lhs s1
/-- The loop of `AnacondaParser::sum`. -/
def sumLoop : Nat → ExpressionNode → Cursor → Option (Option ExpressionNode × Cursor)
  | 0, _, _ => none
  | fuel + 1, lhs, s =>
    let s1 := (whitespace s).2
    let op := peek s1
    if op ≠ some '+' ∧ op ≠ some '-' then some (some lhs, s1)
    else
      match product fuel s1 with
      | none => none
      | some (none, s2) => some (none, s2)
      | some (some rhs, s2) =>
        sumLoop fuel
          (if op = some '+' then ExpressionNode.add lhs rhs else ExpressionNode.sub lhs rhs) s2
/-- The production `AnacondaParser::product`. The statement after the loop is
`return nullptr;`. -/
def product : Nat → Cursor → Option (Option ExpressionNode × Cursor)
  | 0, _ => none
  | fuel + 1, s =>
    match unary fuel s with
    | none => none
    | some (none, s1) => some (none, s1)
    | some (some lhs, s1) => productLoop fuel lhs s1
/-- The loop of `AnacondaParser::product`, with the `return nullptr;` that
follows it. -/
def productLoop : Nat → ExpressionNode → Cursor → Option (Option ExpressionNode × Cursor)
  | 0, _, _ => none
  | fuel + 1, lhs, s =>
    let s1 := (whitespace s).2
    let op := peek s1
    if op ≠ some '*' ∧ op ≠ some '/' ∧ op ≠ some '%' then some (none, s1)
    else
      match unary fuel s1 with
      | none => none
      | some (none, s2) => some (none, s2)
      | some (some rhs, s2) =>
        productLoop fuel
          (if op = some '*' then ExpressionNode.mul lhs rhs
           else if op = some '/' then ExpressionNode.div lhs rhs
           else ExpressionNode.mod lhs rhs) s2
/-- The production `AnacondaParser::unary`. The test after the recursive call
is `if (!node) return new NegateNode(node);`. -/
def unary : Nat → Cursor → Option (Option ExpressionNode × Cursor)
  | 0, _ => none
  | fuel + 1, s =>
    let s1 := (whitespace s).2
    match expect '-' s1 with
    | (true, s2) =>
      match unary fuel s2 with
      | none => none
      | some (none, s3) => some (some (ExpressionNode.negate none), s3)
      | some (some _, s3) => atom fuel s3
    | (false, s2) => atom fuel s2
/-- The production `AnacondaParser::atom`. -/
def atom : Nat → Cursor → Option (Option ExpressionNode × Cursor)
  | 0, _ => none
  | fuel + 1, s =>
    let state := save s
    match paren fuel s with
    | none => none
    | some (some node, s1) => some (some node, s1)
    | some (none, _) =>
      match funccall fuel (restore state) with
      | none => none
      | some (some node, s2) => some (some node, s2)
      | some (none, _) =>
        match variable_ (restore state) with
        | (some node, s3) => some (some node, s3)
        | (none, s3) => some (none, s3)
/-- The production `AnacondaParser::paren`. -/
def paren : Nat → Cursor → Option (Option ExpressionNode × Cursor)
  | 0, _ => none
  | fuel + 1, s =>
    let s1 := (whitespace s).2
    match expect '(' s1 with
    | (false, s2) => some (none, s2)
    | (true, s2) =>
      match expr fuel s2 with
      | none => none
      | some (none, s3) => some (none, s3)
      | some (some node, s3) =>
        let s4 := (whitespace s3).2
        match expect ')' s4 with
        | (false, s5) => some (none, s5)
        | (true, s5) => some (some node, s5)
/-- The production `AnacondaParser::funccall`. The result of `funcargs` is
passed on without a test. -/
def funccall : Nat → Cursor → Option (Option ExpressionNode × Cursor)
  | 0, _ => none
  | fuel + 1, s =>
    let s1 := (whitespace s).2
    match id s1 with
    | (name, s2) =>
      if name = "" then some (none, s2)
      else
        let s3 := (whitespace s2).2
        match expect '(' s3 with
        | (false, s4) => some (none, s4)
        | (true, s4) =>
          match funcargs fuel s4 with
          | none => none
          | some (args, s5) =>
            let s6 := (whitespace s5).2
            match expect ')' s6 with
            | (false, s7) => some (none, s7)
            | (true, s7) => some (some (ExpressionNode.functionCall name args), s7)
/-- The production `AnacondaParser::funcargs`. -/
def funcargs : Nat → Cursor → Option (Option (List ExpressionNode) × Cursor)
  | 0, _ => none
  | fuel + 1, s =>
    let s1 := (whitespace s).2
    match expect '(' s1 with
    | (false, s2) => some (none, s2)
    | (true, s2) => funcargsLoop fuel [] s2
/-- The loop of `AnacondaParser::funcargs`. -/
def funcargsLoop : Nat → List ExpressionNode → Cursor →
    Option (Option (List ExpressionNode) × Cursor)
  | 0, _, _ => none
  | fuel + 1, arguments, s =>
    let s1 := (whitespace s).2
    match expr fuel s1 with
    | none => none
    | some (none, s2) => some (none, s2)
    | some (some arg, s2) =>
      let arguments1 := arguments ++ [arg]
      let s3 := (whitespace s2).2
      match expect ')' s3 with
      | (true, s4) => some (some arguments1, s4)
      | (false, s4) =>
        match expect ',' s4 with
        | (true, s5) => funcargsLoop fuel arguments1 s5
        | (false, s5) => some (none, s5)
end

end AnacondaParser

/-! ## The words of the specification about the parser -/

/-- An identifier in the words of the specification: one letter followed by
letters or underscores. -/
def isIdentifier : List Char → Bool
  | [] => false
  | c :: t => c.isAlpha && t.all (fun d => d.isAlpha || d == '_')

/-- The text that follows an identifier does not continue it: it is empty or
starts with a character that is neither a letter nor an underscore. -/
def endsIdentifier : Cursor → Bool
  | [] => true
  | c :: _ => !(c.isAlpha || c == '_')

/-- The productions that the backtracking property of the specification
ranges over. -/
inductive Production where
  | type | funcdecl | funcpar | block | statement | ifstat | sum | product
  | unary | atom | paren | funccall | funcargs | variable_
  deriving DecidableEq

/-- The outcome of a production with the node it built forgotten: whether the
production returned a node, and the cursor it left. -/
def outcome {α : Type} (r : Option α × Cursor) : Bool × Cursor :=
  (r.1.isSome, r.2)

/-- Running a production of the parser from a cursor, with a budget for the
productions that need one. -/
def Production.run : Production → Nat → Cursor → Option (Bool × Cursor)
  | .type, _, s => some (outcome (AnacondaParser.type s))
  | .funcdecl, fuel, s => (AnacondaParser.funcdecl fuel s).map outcome
  | .funcpar, fuel, s => (AnacondaParser.funcpar fuel s).map outcome
  | .block, fuel, s => (AnacondaParser.block fuel s).map outcome
  | .statement, _, s => some (outcome (AnacondaParser.statement s))
  | .ifstat, _, s => some (outcome (AnacondaParser.ifstat s))
  | .sum, fuel, s => (AnacondaParser.sum fuel s).map outcome
  | .product, fuel, s => (AnacondaParser.product fuel s).map outcome
  | .unary, fuel, s => (AnacondaParser.unary fuel s).map outcome
  | .atom, fuel, s => (AnacondaParser.atom fuel s).map outcome
  | .paren, fuel, s => (AnacondaParser.paren fuel s).map outcome
  | .funccall, fuel, s => (AnacondaParser.funccall fuel s).map outcome
  | .funcargs, fuel, s => (AnacondaParser.funcargs fuel s).map outcome
  | .variable_, _, s => some (outcome (AnacondaParser.variable_ s))

/-! The grammar of the specification, as the sets of texts its productions
derive. The specification leaves the statements open (`statement = ifstat |
...`), so the set of statement texts is a parameter. -/

namespace Grammar

/-- `WS?`: zero or more blank characters. -/
def optWS (t : List Char) : Prop :=
  ∀ c ∈ t, c.isWhitespace = true

/-- `WS`: one or more blank characters. -/
def WS (t : List Char) : Prop :=
  t ≠ [] ∧ optWS t

/-- `type = WS? ( "u8" | id )`. -/
def type (t : List Char) : Prop :=
  ∃ w i, t = w ++ i ∧ optWS w ∧ (i = "u8".data ∨ isIdentifier i = true)

/-- One parameter, `type WS id`. -/
def param (t : List Char) : Prop :=
  ∃ ty w i, t = ty ++ w ++ i ∧ type ty ∧ WS w ∧ isIdentifier i = true

/-- `funcpar = ( type WS id ("," type WS id)* )?`. -/
def funcpar (t : List Char) : Prop :=
  t = [] ∨ ∃ (p : List Char) (ps : List (List Char)), param p ∧ (∀ q ∈ ps, param q) ∧
    t = p ++ (ps.map (fun q => ',' :: q)).flatten

/-- `statlist = statement*`. -/
def statlist (statement : List Char → Prop) (t : List Char) : Prop :=
  ∃ ss : List (List Char), (∀ x ∈ ss, statement x) ∧ t = ss.flatten

/-- `block = WS? "{" statlist WS? "}"`. -/
def block (statement : List Char → Prop) (t : List Char) : Prop :=
  ∃ w1 body w2, t = w1 ++ '{' :: body ++ w2 ++ ['}'] ∧
    optWS w1 ∧ statlist statement body ∧ optWS w2

/-- `("->" type)?`. -/
def returnType (t : List Char) : Prop :=
  t = [] ∨ ∃ ty, t = '-' :: '>' :: ty ∧ type ty

/-- `funcdecl = WS? "func" WS id WS? "(" funcpar ")" ("->" type)? block`. -/
def funcdecl (statement : List Char → Prop) (t : List Char) : Prop :=
  ∃ w0 w1 name w2 pars ret blk,
    t = w0 ++ "func".data ++ w1 ++ name ++ w2 ++ '(' :: pars ++ ')' :: ret ++ blk ∧
    optWS w0 ∧ WS w1 ∧ isIdentifier name = true ∧ optWS w2 ∧ funcpar pars ∧
    returnType ret ∧ block statement blk

/-- `unit = funcdecl*`. -/
def unit (statement : List Char → Prop) (t : List Char) : Prop :=
  ∃ ds : List (List Char), (∀ d ∈ ds, funcdecl statement d) ∧ t = ds.flatten

/-- The top-level entry `unit WS? EOF`: the whole input is a unit followed by
optional blanks. -/
def parse (statement : List Char → Prop) (t : List Char) : Prop :=
  ∃ u w, t = u ++ w ∧ unit statement u ∧ optWS w

end Grammar

/-! ## The faults and the code generator's writer -/

/-- The exceptions of `except/exceptions.cpp` with their messages, the
`RecursiveTypeException` thrown by the structure check, and the fault of an
operation that has no lowering. -/
inductive ProgramException where
  | programException (msg : String)
  | astException (msg : String)
  | typeCheckException (msg : String)
  | recursiveTypeException (msg : String)
  | unimplemented
  deriving DecidableEq

/-- Modelled from the spec: `BrainfuckWriter` is declared in
`generator/brainfuck.h`, which is not among the sources. Of its state, the
output stream that the emitted instructions and the passthrough text go to is
represented. -/
structure BrainfuckWriter where
  output : String
  deriving DecidableEq

/-- The result of a pass over a node: `ok` or the fault that was thrown, and
the writer as the call leaves it. -/
abbrev Pass := BrainfuckWriter → Except ProgramException Unit × BrainfuckWriter

/-- Modelled from the spec: `BrainfuckWriter::copyAssembly` is not among the
sources: "the raw text is copied into the output stream unmodified". -/
def BrainfuckWriter.copyAssembly (writer : BrainfuckWriter) (assembly : String) :
    Except ProgramException Unit × BrainfuckWriter :=
  (Except.ok (), { writer with output := writer.output ++ assembly })

/-- Modelled from the spec: `BrainfuckWriter::unimplemented` is not among the
sources: it raises the unimplemented-operation fault "rather than emit
incorrect instructions", so it throws and writes nothing. -/
def BrainfuckWriter.unimplemented (writer : BrainfuckWriter) :
    Except ProgramException Unit × BrainfuckWriter :=
  (Except.error ProgramException.unimplemented, writer)

/-- Modelled from the spec: a node whose class is not among the sources
(`ArgumentListNode`, the operands of a binary operator), seen through the
capabilities `checkTypes` and `generate` that every node has; what the two
methods do is left open. -/
structure NodeMethods where
  checkTypes : Pass
  generate : Pass

/-! ## `StructureDefinitionNode` -/

/-- The node `StructureDefinitionNode`: its name, its members and its own
type descriptor. -/
structure StructureDefinitionNode where
  name : String
  members : List Field
  type : DataTypeBase

namespace StructureDefinitionNode

/-- The constructor: the node's own descriptor is the forward reference to
its name. -/
def new (name : String) (members : List Field) : StructureDefinitionNode :=
  { name := name, members := members, type := DataTypeBase.structForward name }

/-- The loop of `StructureDefinitionNode::checkTypes` over the members, in
order; the first member whose type equals the node's own descriptor throws. -/
def checkTypesLoop (self : StructureDefinitionNode) : List Field → Except ProgramException Unit
  | [] => Except.ok ()
  | it :: rest =>
    if it.getType.equals self.type then
      Except.error (ProgramException.recursiveTypeException
        ("Structure " ++ self.name ++ " contains itself in member " ++ it.getName))
    else checkTypesLoop self rest

/-- The method `StructureDefinitionNode::checkTypes`; the writer is not
used. -/
def checkTypes (self : StructureDefinitionNode) : Pass :=
  fun writer => (checkTypesLoop self self.members, writer)

end StructureDefinitionNode

/-! ## `AssemblyNode` -/

/-- The node `AssemblyNode`: declared type, raw text and argument list. -/
structure AssemblyNode where
  datatype : DataTypeBase
  assembly : String
  arguments : NodeMethods

namespace AssemblyNode

/-- The method `AssemblyNode::checkTypes`. -/
def checkTypes (self : AssemblyNode) : Pass :=
  fun writer => self.arguments.checkTypes writer

/-- The method `AssemblyNode::getType`: a copy of the declared type. -/
def getType (self : AssemblyNode) : DataTypeBase :=
  self.datatype

/-- The method `AssemblyNode::generate`. -/
def generate (self : AssemblyNode) : Pass :=
  fun writer => writer.copyAssembly self.assembly

end AssemblyNode

/-! ## `BitwiseRightShiftNode` -/

/-- The node `BitwiseRightShiftNode`: a binary operator with its two
operands. -/
structure BitwiseRightShiftNode where
  lop : NodeMethods
  rop : NodeMethods

namespace BitwiseRightShiftNode

/-- The method `BitwiseRightShiftNode::generate`. -/
def generate (_self : BitwiseRightShiftNode) : Pass :=
  fun writer => writer.unimplemented

end BitwiseRightShiftNode

/-- The statements behind a nullable statement-list pointer, in insertion
order; the null pointer holds none. -/
def statements : Option StatementListNode → List StatementNode
  | none => []
  | some list => list.toList

/-- The input from the cursor `s` on is a sequence of function declarations
each accepted by `funcdecl`: `funcdecl`, given some budget, returns the first
node and leaves a cursor from which the remaining nodes are returned one after
the other, the last call leaving the cursor at `s'`. -/
def DeclSequence : Cursor → List StatementNode → Cursor → Prop
  | s, [], s' => s' = s
  | s, node :: rest, s' =>
    ∃ fuel s1, AnacondaParser.funcdecl fuel s = some (some node, s1) ∧ DeclSequence s1 rest s'

/-- The text of a parameter type: `u8`, or the name of the structure that is
referred to. -/
def typeText : DataTypeBase → List Char
  | DataTypeBase.u8 => "u8".data
  | DataTypeBase.structForward name => name.data
  | _ => []

/-- The type descriptors that a parameter list can denote: `u8`, and the
forward reference to a structure named by an identifier. -/
def isParameterType : DataTypeBase → Bool
  | DataTypeBase.u8 => true
  | DataTypeBase.structForward name => isIdentifier name.data
  | _ => false

/-- The text `t1 n1, ..., tk nk)` of the declarations of parameters, each a
type and a name, up to the closing parenthesis. -/
def parametersText : List (DataTypeBase × String) → List Char
  | [] => [')']
  | d :: [] => typeText d.1 ++ ' ' :: d.2.data ++ [')']
  | d :: e :: rest =>
    typeText d.1 ++ ' ' :: d.2.data ++ ',' :: ' ' :: parametersText (e :: rest)

/-- The type of the last declaration of the name `n` in a list of
declarations of parameters, if there is one. -/
def lastType (ds : List (DataTypeBase × String)) (n : String) : Option DataTypeBase :=
  (ds.reverse.find? (fun d => d.2 = n)).map (fun d => d.1)

/-- The keys of a parameter map are in strictly increasing order. -/
def ParameterMap.Sorted (m : ParameterMap) : Prop :=
  (m.map (fun e => e.1)).Pairwise (fun a b => lexLess a.data b.data = true)

/-- A production run with a budget leaves the cursor at or after the place
it started from, whatever it returns. -/
def Advances {α : Type} (f : Cursor → Option (Option α × Cursor)) : Prop :=
  ∀ s r s', f s = some (r, s') → s' <:+ s

set_option maxRecDepth 100000
set_option linter.unusedTactic false
set_option linter.unreachableTactic false

/-! ## Lemmas on the lexical primitives -/

open Parser AnacondaParser

theorem isAlpha_not_isWhitespace {c : Char} (h : c.isAlpha = true) : c.isWhitespace = false := by
  cases hw : c.isWhitespace with
  | false => rfl
  | true =>
    simp only [Char.isWhitespace, Bool.or_eq_true, decide_eq_true_eq] at hw
    rcases hw with ((rfl | rfl) | rfl) | rfl <;> exact absurd h (by decide)

theorem whitespace_nil : whitespace [] = (false, []) := rfl

theorem whitespace_cons_of_not {c : Char} {t : Cursor} (h : c.isWhitespace = false) :
    whitespace (c :: t) = (false, c :: t) := by
  simp [whitespace, List.dropWhile, h]

theorem whitespace_cons_of_blank {c : Char} {t : Cursor} (h : c.isWhitespace = true) :
    whitespace (c :: t) = (true, (whitespace t).2) := by
  simp [whitespace, List.dropWhile, h]

theorem idLoop_append (m rest : Cursor) (hm : m.all (fun d => d.isAlpha || d == '_') = true)
    (hr : endsIdentifier rest = true) : idLoop (m ++ rest) = rest := by
  induction m with
  | nil =>
    cases rest with
    | nil => rfl
    | cons c t =>
      simp [endsIdentifier] at hr
      simp [idLoop, expectLetter, expect, hr]
  | cons d m ih =>
    simp only [List.all_cons, Bool.and_eq_true] at hm
    have hd := hm.1
    simp only [Bool.or_eq_true, beq_iff_eq] at hd
    rcases hd with hd | hd
    · simp [idLoop, expectLetter, hd, ih hm.2]
    · simp [idLoop, expect, hd, ih hm.2]

theorem endCapture_append (n rest : Cursor) : endCapture (n ++ rest) rest = String.mk n := by
  simp [endCapture]

/-- On an identifier followed by text that does not continue it, `id` returns
the identifier and leaves the cursor right after it. -/
theorem id_append (n rest : Cursor) (hn : isIdentifier n = true)
    (hr : endsIdentifier rest = true) : AnacondaParser.id (n ++ rest) = (String.mk n, rest) := by
  cases n with
  | nil => simp [isIdentifier] at hn
  | cons c t =>
    simp only [isIdentifier, Bool.and_eq_true] at hn
    have h := endCapture_append (c :: t) rest
    simp only [List.cons_append] at h
    simp [AnacondaParser.id, expectLetter, hn.1, idLoop_append t rest hn.2 hr, h, beginCapture]

theorem whitespace_identifier (n rest : Cursor) (hn : isIdentifier n = true) :
    whitespace (n ++ rest) = (false, n ++ rest) := by
  cases n with
  | nil => simp [isIdentifier] at hn
  | cons c t =>
    simp only [isIdentifier, Bool.and_eq_true] at hn
    exact whitespace_cons_of_not (isAlpha_not_isWhitespace hn.1)

theorem mk_ne_empty_of_isIdentifier (n : Cursor) (hn : isIdentifier n = true) :
    String.mk n ≠ "" := by
  cases n with
  | nil => simp [isIdentifier] at hn
  | cons c t => intro h; exact absurd (congrArg String.data h) (by simp)

/-! ## One declaration with one `u8` parameter (C1) -/

theorem funcdecl_basic (fuel : Nat) (n p rest : Cursor) (hn : isIdentifier n = true)
    (hp : isIdentifier p = true) :
    funcdecl (fuel + 1) ('f' :: 'u' :: 'n' :: 'c' :: ' ' :: (n ++ '(' :: 'u' :: '8' :: ' ' ::
      (p ++ ')' :: ' ' :: '-' :: '>' :: ' ' :: 'u' :: '8' :: ' ' :: '{' :: ' ' :: '}' :: rest)))
    = some (some (StatementNode.functionDeclaration (String.mk n)
        ⟨[(String.mk p, DataTypeBase.u8)]⟩ DataTypeBase.u8 (BlockNode.mk none)), rest) := by
  have h1 := id_append n ('(' :: 'u' :: '8' :: ' ' :: (p ++ ')' :: ' ' :: '-' :: '>' :: ' ' ::
    'u' :: '8' :: ' ' :: '{' :: ' ' :: '}' :: rest)) hn rfl
  have h2 := id_append p (')' :: ' ' :: '-' :: '>' :: ' ' :: 'u' :: '8' :: ' ' :: '{' :: ' ' ::
    '}' :: rest) hp rfl
  have h3 := whitespace_identifier n ('(' :: 'u' :: '8' :: ' ' :: (p ++ ')' :: ' ' :: '-' ::
    '>' :: ' ' :: 'u' :: '8' :: ' ' :: '{' :: ' ' :: '}' :: rest)) hn
  have h4 := whitespace_identifier p (')' :: ' ' :: '-' :: '>' :: ' ' :: 'u' :: '8' :: ' ' ::
    '{' :: ' ' :: '}' :: rest) hp
  have h5 := mk_ne_empty_of_isIdentifier n hn
  have h6 := mk_ne_empty_of_isIdentifier p hp
  simp [funcdecl, funcpar, funcparLoop, block, statlist, statlistLoop, statement, ifstat,
    AnacondaParser.type, expectStr, expect, whitespace_cons_of_blank, whitespace_cons_of_not,
    h1, h2, h3, h4, h5, h6, ParameterMap.assign]

theorem funcdecl_nil (fuel : Nat) : funcdecl fuel [] = some (none, []) := by
  simp [funcdecl, expectStr, whitespace_nil]

theorem parseFuel_basic (fuel : Nat) (n p : Cursor) (hn : isIdentifier n = true)
    (hp : isIdentifier p = true) :
    parseFuel (fuel + 2) ('f' :: 'u' :: 'n' :: 'c' :: ' ' :: (n ++ '(' :: 'u' :: '8' :: ' ' ::
      (p ++ ')' :: ' ' :: '-' :: '>' :: ' ' :: 'u' :: '8' :: ' ' :: '{' :: ' ' :: '}' :: [])))
    = some (some (StatementListNode.mk none (StatementNode.functionDeclaration (String.mk n)
        ⟨[(String.mk p, DataTypeBase.u8)]⟩ DataTypeBase.u8 (BlockNode.mk none)))) := by
  simp [parseFuel, AnacondaParser.unit, unitLoop, funcdecl_basic (fuel + 1) n p [] hn hp,
    funcdecl_nil, whitespace_nil, atEnd]

/-- C1. For every identifier `n` and every identifier `p`, `parse` on the text
`func n(u8 p) -> u8 { }` returns a statement list holding exactly one function
declaration: its name is `n`, its parameters are exactly `p : u8`, its return
type is `u8` and its body is a block with no statement. -/
theorem parse_funcdecl_u8 (n p : String) (hn : isIdentifier n.data = true)
    (hp : isIdentifier p.data = true) :
    AnacondaParser.parse ("func " ++ n ++ "(u8 " ++ p ++ ") -> u8 { }") =
      some (some (StatementListNode.mk none
        (StatementNode.functionDeclaration n ⟨[(p, DataTypeBase.u8)]⟩ DataTypeBase.u8
          (BlockNode.mk none)))) := by
  have hdata : ("func " ++ n ++ "(u8 " ++ p ++ ") -> u8 { }").data =
      'f' :: 'u' :: 'n' :: 'c' :: ' ' :: (n.data ++ '(' :: 'u' :: '8' :: ' ' ::
      (p.data ++ ')' :: ' ' :: '-' :: '>' :: ' ' :: 'u' :: '8' :: ' ' :: '{' :: ' ' ::
      '}' :: [])) := by
    simp [String.data_append]
  unfold AnacondaParser.parse
  rw [hdata]
  exact parseFuel_basic _ n.data p.data hn hp

/-- The instance of C1 that the specification gives: `func f(u8 x) -> u8 { }`
parses to one declaration named `f` with the parameter `x : u8` and the
return type `u8`. -/
theorem parse_funcdecl_u8_witness :
    (isIdentifier "f".data = true ∧ isIdentifier "x".data = true) ∧
    AnacondaParser.parse ("func " ++ "f" ++ "(u8 " ++ "x" ++ ") -> u8 { }") =
      some (some (StatementListNode.mk none
        (StatementNode.functionDeclaration "f" ⟨[("x", DataTypeBase.u8)]⟩ DataTypeBase.u8
          (BlockNode.mk none)))) :=
  ⟨⟨by decide, by decide⟩, parse_funcdecl_u8 "f" "x" (by decide) (by decide)⟩

/-! ## What `parse` accepts and the grammar (C2) -/

theorem getLast?_append_of_some {l l' : List Char} {c : Char} (h : l'.getLast? = some c) :
    (l ++ l').getLast? = some c := by
  simp [List.getLast?_append, h]

theorem Grammar.block_getLast {st : List Char → Prop} {t : List Char}
    (h : Grammar.block st t) : t.getLast? = some '}' := by
  obtain ⟨w1, body, w2, rfl, -, -, -⟩ := h
  exact getLast?_append_of_some rfl

theorem Grammar.funcdecl_getLast {st : List Char → Prop} {t : List Char}
    (h : Grammar.funcdecl st t) : t.getLast? = some '}' := by
  obtain ⟨w0, w1, name, w2, pars, ret, blk, rfl, -, -, -, -, -, -, hb⟩ := h
  exact getLast?_append_of_some (Grammar.block_getLast hb)

theorem Grammar.unit_getLast {st : List Char → Prop} {t : List Char}
    (h : Grammar.unit st t) : t = [] ∨ t.getLast? = some '}' := by
  obtain ⟨ds, hds, rfl⟩ := h
  induction ds with
  | nil => left; rfl
  | cons d ds ih =>
    right
    have hd := Grammar.funcdecl_getLast (hds d (List.mem_cons_self _ _))
    rcases ih (fun x hx => hds x (List.mem_cons_of_mem _ hx)) with h0 | h1
    · simp [List.flatten, h0, hd]
    · simp only [List.flatten, List.getLast?_append, h1, Option.or_some]

/-- A text that the grammar `unit WS? EOF` derives is empty or ends in a
closing brace or in a blank. -/
theorem Grammar.parse_getLast {st : List Char → Prop} {t : List Char}
    (h : Grammar.parse st t) :
    t = [] ∨ ∃ c, t.getLast? = some c ∧ (c = '}' ∨ c.isWhitespace = true) := by
  obtain ⟨u, w, rfl, hu, hw⟩ := h
  rcases List.eq_nil_or_concat w with rfl | ⟨w', c, rfl⟩
  · rcases Grammar.unit_getLast hu with rfl | h1
    · left; rfl
    · right; exact ⟨'}', by simpa using h1, Or.inl rfl⟩
  · right
    refine ⟨c, by simp, Or.inr (hw c (by simp))⟩

/-- C2. The code accepts an input that the grammar `unit WS? EOF` does not
derive: on `func g(u8 x) { } func f` the failed second `funcdecl` has consumed
the unfinished declaration, so `parse` finds the cursor at the end and returns
the tree of the first declaration; whatever the statements are, the grammar
does not derive this input. The truncated `func f(` is refused. -/
theorem parse_accepts_unfinished_declaration :
    AnacondaParser.parse "func g(u8 x) { } func f" =
      some (some (StatementListNode.mk none
        (StatementNode.functionDeclaration "g" ⟨[("x", DataTypeBase.u8)]⟩ DataTypeBase.void
          (BlockNode.mk none)))) ∧
    (∀ statement : List Char → Prop,
      ¬ Grammar.parse statement "func g(u8 x) { } func f".data) ∧
    AnacondaParser.parse "func f(" = some none := by
  refine ⟨rfl, ?_, rfl⟩
  intro st h
  rcases Grammar.parse_getLast h with h0 | ⟨c, hc, hc'⟩
  · exact absurd h0 (by decide)
  · have : c = 'f' := by
      have h2 : "func g(u8 x) { } func f".data.getLast? = some 'f' := by decide
      rw [h2] at hc
      exact (Option.some.inj hc).symm
    subst this
    rcases hc' with h3 | h3
    · exact absurd h3 (by decide)
    · exact absurd h3 (by decide)


/-! ## A production never moves the cursor backwards -/

theorem step_whitespace {s1 s : Cursor} (hs : s1 <:+ s) : (whitespace s1).2 <:+ s :=
  (List.dropWhile_suffix _).trans hs

theorem step_whitespace_eq {s1 s2 s : Cursor} {b : Bool} (h : whitespace s1 = (b, s2))
    (hs : s1 <:+ s) : s2 <:+ s := by
  have := step_whitespace hs
  rwa [h] at this

theorem step_expect {c : Char} {s1 s2 s : Cursor} {b : Bool} (h : expect c s1 = (b, s2))
    (hs : s1 <:+ s) : s2 <:+ s := by
  unfold expect at h
  split at h
  · split at h <;> cases h
    · exact (List.suffix_cons _ _).trans hs
    · exact hs
  · cases h; exact hs

theorem step_expectStr {t : String} {s1 s2 s : Cursor} {b : Bool} (h : expectStr t s1 = (b, s2))
    (hs : s1 <:+ s) : s2 <:+ s := by
  unfold expectStr at h
  split at h <;> cases h
  · exact (List.drop_suffix _ _).trans hs
  · exact hs

theorem idLoop_suffix (s : Cursor) : idLoop s <:+ s := by
  induction s with
  | nil => exact List.suffix_refl _
  | cons c t ih =>
    unfold idLoop
    split
    · exact ih.trans (List.suffix_cons _ _)
    · exact List.suffix_refl _

theorem step_expectLetter {s1 s2 s : Cursor} {b : Bool} (h : expectLetter s1 = (b, s2))
    (hs : s1 <:+ s) : s2 <:+ s := by
  unfold expectLetter at h
  split at h
  · split at h <;> cases h
    · exact (List.suffix_cons _ _).trans hs
    · exact hs
  · cases h; exact hs

theorem step_id {s1 s : Cursor} (hs : s1 <:+ s) : (AnacondaParser.id s1).2 <:+ s := by
  unfold AnacondaParser.id
  split
  · exact step_expectLetter (by assumption) hs
  · exact (idLoop_suffix _).trans (step_expectLetter (by assumption) hs)

theorem step_id_eq {s1 s2 s : Cursor} {name : String} (h : AnacondaParser.id s1 = (name, s2))
    (hs : s1 <:+ s) : s2 <:+ s := by
  have h1 := step_id hs
  rwa [h] at h1

theorem step_type {s1 s : Cursor} (hs : s1 <:+ s) : (AnacondaParser.type s1).2 <:+ s := by
  simp only [AnacondaParser.type]
  repeat' split
  all_goals
    repeat (first
      | exact hs
      | refine step_whitespace ?_
      | refine step_id ?_
      | refine step_expectStr (by assumption) ?_)

theorem step_type_eq {s1 s2 s : Cursor} {r : Option DataTypeBase}
    (h : AnacondaParser.type s1 = (r, s2)) (hs : s1 <:+ s) : s2 <:+ s := by
  have h1 := step_type hs
  rwa [h] at h1

theorem step_ifstat {s1 s : Cursor} (hs : s1 <:+ s) : (ifstat s1).2 <:+ s := by
  simp only [ifstat]
  repeat' split
  all_goals
    repeat (first
      | exact hs
      | refine step_whitespace ?_
      | refine step_expectStr (by assumption) ?_
      | refine step_whitespace_eq (by assumption) ?_)

theorem step_statement_eq {s1 s2 s : Cursor} {r : Option StatementNode}
    (h : statement s1 = (r, s2)) (hs : s1 <:+ s) : s2 <:+ s := by
  have h1 := step_ifstat hs
  rw [show ifstat s1 = statement s1 from rfl, h] at h1
  exact h1

theorem step_variable {s1 s : Cursor} (hs : s1 <:+ s) : (variable_ s1).2 <:+ s := by
  simp only [variable_]
  repeat' split
  all_goals
    repeat (first
      | exact hs
      | refine step_whitespace ?_
      | refine step_id ?_)

theorem step_variable_eq {s1 s2 s : Cursor} {r : Option ExpressionNode}
    (h : variable_ s1 = (r, s2)) (hs : s1 <:+ s) : s2 <:+ s := by
  have h1 := step_variable hs
  rwa [h] at h1

theorem Advances.step {α : Type} {f : Cursor → Option (Option α × Cursor)} (hf : Advances f)
    {s1 s2 s : Cursor} {r : Option α} (h : f s1 = some (r, s2)) (hs : s1 <:+ s) : s2 <:+ s :=
  (hf s1 r s2 h).trans hs

theorem statlistLoop_advances (fuel : Nat) :
    ∀ list, Advances (statlistLoop fuel list) := by
  induction fuel with
  | zero => intro list s r s' h; simp [statlistLoop] at h
  | succ fuel ih =>
    intro list s r s' h
    simp only [statlistLoop] at h
    repeat' split at h
    all_goals first | cases h | skip
    all_goals
      repeat (first
        | exact List.suffix_refl _
        | refine step_whitespace ?_
        | refine step_id ?_
        | refine step_expectStr (by assumption) ?_
        | refine step_expect (by assumption) ?_
        | refine step_whitespace_eq (by assumption) ?_
        | refine step_statement_eq (by assumption) ?_
        | refine Advances.step (ih _) (by assumption) ?_)

theorem statlist_advances (fuel : Nat) : Advances (statlist fuel) :=
  statlistLoop_advances fuel none

theorem block_advances (fuel : Nat) : Advances (block fuel) := by
  intro s r s' h
  simp only [block] at h
  repeat' split at h
  all_goals first | cases h | skip
  all_goals
    repeat (first
      | exact List.suffix_refl _
      | refine step_whitespace ?_
      | refine step_id ?_
      | refine step_expectStr (by assumption) ?_
      | refine step_expect (by assumption) ?_
      | refine step_whitespace_eq (by assumption) ?_
      | refine Advances.step (statlist_advances fuel) (by assumption) ?_)

theorem funcparLoop_advances (fuel : Nat) :
    ∀ parameters, Advances (funcparLoop fuel parameters) := by
  induction fuel with
  | zero => intro parameters s r s' h; simp [funcparLoop] at h
  | succ fuel ih =>
    intro parameters s r s' h
    simp only [funcparLoop] at h
    repeat' split at h
    all_goals first | cases h | skip
    all_goals
      repeat (first
        | exact List.suffix_refl _
        | refine step_whitespace ?_
        | refine step_id ?_
        | refine step_expectStr (by assumption) ?_
        | refine step_expect (by assumption) ?_
        | refine step_whitespace_eq (by assumption) ?_
        | refine step_type_eq (by assumption) ?_
        | refine Advances.step (ih _) (by assumption) ?_)

theorem funcpar_advances (fuel : Nat) : Advances (funcpar fuel) := by
  intro s r s' h
  simp only [funcpar] at h
  repeat' split at h
  all_goals first | cases h | skip
  all_goals
    repeat (first
      | exact List.suffix_refl _
      | refine step_whitespace ?_
      | refine step_id ?_
      | refine step_expectStr (by assumption) ?_
      | refine step_expect (by assumption) ?_
      | refine step_whitespace_eq (by assumption) ?_
      | refine Advances.step (funcparLoop_advances fuel _) (by assumption) ?_)

theorem step_rtype {s1 s2 s : Cursor} {r : Option DataTypeBase}
    (h : (match expectStr "->" s1 with
      | (true, s7) => AnacondaParser.type s7
      | (false, s7) => (some DataTypeBase.void, s7)) = (r, s2))
    (hs : s1 <:+ s) : s2 <:+ s := by
  split at h
  · exact step_type_eq h (step_expectStr (by assumption) hs)
  · cases h
    exact step_expectStr (by assumption) hs

theorem funcdecl_advances (fuel : Nat) : Advances (funcdecl fuel) := by
  intro s r s' h
  simp only [funcdecl] at h
  repeat' split at h
  all_goals first | cases h | skip
  all_goals
    repeat (first
      | exact List.suffix_refl _
      | refine step_whitespace ?_
      | refine step_id ?_
      | refine step_expectStr (by assumption) ?_
      | refine step_expect (by assumption) ?_
      | refine step_whitespace_eq (by assumption) ?_
      | refine step_type_eq (by assumption) ?_
      | refine step_rtype (by assumption) ?_
      | refine Advances.step (funcpar_advances fuel) (by assumption) ?_
      | refine Advances.step (block_advances fuel) (by assumption) ?_)

/-- The productions of the expression grammar, run with any budget, leave the
cursor at or after the place they started from. -/
theorem expr_family_advances (fuel : Nat) :
    Advances (expr fuel) ∧ Advances (sum fuel) ∧ (∀ lhs, Advances (sumLoop fuel lhs)) ∧
    Advances (product fuel) ∧ (∀ lhs, Advances (productLoop fuel lhs)) ∧
    Advances (unary fuel) ∧ Advances (atom fuel) ∧ Advances (paren fuel) ∧
    Advances (funccall fuel) ∧ Advances (funcargs fuel) ∧
    (∀ arguments, Advances (funcargsLoop fuel arguments)) := by
  induction fuel with
  | zero =>
    refine ⟨?_, ?_, ?_, ?_, ?_, ?_, ?_, ?_, ?_, ?_, ?_⟩
    · intro s r s' h; simp [expr] at h
    · intro s r s' h; simp [sum] at h
    · intro lhs s r s' h; simp [sumLoop] at h
    · intro s r s' h; simp [product] at h
    · intro lhs s r s' h; simp [productLoop] at h
    · intro s r s' h; simp [unary] at h
    · intro s r s' h; simp [atom] at h
    · intro s r s' h; simp [paren] at h
    · intro s r s' h; simp [funccall] at h
    · intro s r s' h; simp [funcargs] at h
    · intro arguments s r s' h; simp [funcargsLoop] at h
  | succ fuel ih =>
    obtain ⟨hexpr, hsum, hsumLoop, hproduct, hproductLoop, hunary, hatom, hparen, hfunccall,
      hfuncargs, hfuncargsLoop⟩ := ih
    refine ⟨?_, ?_, ?_, ?_, ?_, ?_, ?_, ?_, ?_, ?_, ?_⟩
    · intro s r s' h
      simp only [expr, save, restore] at h
      repeat' split at h
      all_goals first | cases h | skip
      all_goals
        repeat (first
          | exact List.suffix_refl _
          | refine step_whitespace ?_
          | refine step_id ?_
          | refine step_expectStr (by assumption) ?_
          | refine step_expect (by assumption) ?_
          | refine step_whitespace_eq (by assumption) ?_
          | refine step_variable_eq (by assumption) ?_
          | refine Advances.step hexpr (by assumption) ?_
          | refine Advances.step hsum (by assumption) ?_
          | refine Advances.step (hsumLoop _) (by assumption) ?_
          | refine Advances.step hproduct (by assumption) ?_
          | refine Advances.step (hproductLoop _) (by assumption) ?_
          | refine Advances.step hunary (by assumption) ?_
          | refine Advances.step hatom (by assumption) ?_
          | refine Advances.step hparen (by assumption) ?_
          | refine Advances.step hfunccall (by assumption) ?_
          | refine Advances.step hfuncargs (by assumption) ?_
          | refine Advances.step (hfuncargsLoop _) (by assumption) ?_)
    · intro s r s' h
      simp only [sum, save, restore] at h
      repeat' split at h
      all_goals first | cases h | skip
      all_goals
        repeat (first
          | exact List.suffix_refl _
          | refine step_whitespace ?_
          | refine step_id ?_
          | refine step_expectStr (by assumption) ?_
          | refine step_expect (by assumption) ?_
          | refine step_whitespace_eq (by assumption) ?_
          | refine step_variable_eq (by assumption) ?_
          | refine Advances.step hexpr (by assumption) ?_
          | refine Advances.step hsum (by assumption) ?_
          | refine Advances.step (hsumLoop _) (by assumption) ?_
          | refine Advances.step hproduct (by assumption) ?_
          | refine Advances.step (hproductLoop _) (by assumption) ?_
          | refine Advances.step hunary (by assumption) ?_
          | refine Advances.step hatom (by assumption) ?_
          | refine Advances.step hparen (by assumption) ?_
          | refine Advances.step hfunccall (by assumption) ?_
          | refine Advances.step hfuncargs (by assumption) ?_
          | refine Advances.step (hfuncargsLoop _) (by assumption) ?_)
    · intro x s r s' h
      simp only [sumLoop, save, restore] at h
      repeat' split at h
      all_goals first | cases h | skip
      all_goals
        repeat (first
          | exact List.suffix_refl _
          | refine step_whitespace ?_
          | refine step_id ?_
          | refine step_expectStr (by assumption) ?_
          | refine step_expect (by assumption) ?_
          | refine step_whitespace_eq (by assumption) ?_
          | refine step_variable_eq (by assumption) ?_
          | refine Advances.step hexpr (by assumption) ?_
          | refine Advances.step hsum (by assumption) ?_
          | refine Advances.step (hsumLoop _) (by assumption) ?_
          | refine Advances.step hproduct (by assumption) ?_
          | refine Advances.step (hproductLoop _) (by assumption) ?_
          | refine Advances.step hunary (by assumption) ?_
          | refine Advances.step hatom (by assumption) ?_
          | refine Advances.step hparen (by assumption) ?_
          | refine Advances.step hfunccall (by assumption) ?_
          | refine Advances.step hfuncargs (by assumption) ?_
          | refine Advances.step (hfuncargsLoop _) (by assumption) ?_)
    · intro s r s' h
      simp only [product, save, restore] at h
      repeat' split at h
      all_goals first | cases h | skip
      all_goals
        repeat (first
          | exact List.suffix_refl _
          | refine step_whitespace ?_
          | refine step_id ?_
          | refine step_expectStr (by assumption) ?_
          | refine step_expect (by assumption) ?_
          | refine step_whitespace_eq (by assumption) ?_
          | refine step_variable_eq (by assumption) ?_
          | refine Advances.step hexpr (by assumption) ?_
          | refine Advances.step hsum (by assumption) ?_
          | refine Advances.step (hsumLoop _) (by assumption) ?_
          | refine Advances.step hproduct (by assumption) ?_
          | refine Advances.step (hproductLoop _) (by assumption) ?_
          | refine Advances.step hunary (by assumption) ?_
          | refine Advances.step hatom (by assumption) ?_
          | refine Advances.step hparen (by assumption) ?_
          | refine Advances.step hfunccall (by assumption) ?_
          | refine Advances.step hfuncargs (by assumption) ?_
          | refine Advances.step (hfuncargsLoop _) (by assumption) ?_)
    · intro x s r s' h
      simp only [productLoop, save, restore] at h
      repeat' split at h
      all_goals first | cases h | skip
      all_goals
        repeat (first
          | exact List.suffix_refl _
          | refine step_whitespace ?_
          | refine step_id ?_
          | refine step_expectStr (by assumption) ?_
          | refine step_expect (by assumption) ?_
          | refine step_whitespace_eq (by assumption) ?_
          | refine step_variable_eq (by assumption) ?_
          | refine Advances.step hexpr (by assumption) ?_
          | refine Advances.step hsum (by assumption) ?_
          | refine Advances.step (hsumLoop _) (by assumption) ?_
          | refine Advances.step hproduct (by assumption) ?_
          | refine Advances.step (hproductLoop _) (by assumption) ?_
          | refine Advances.step hunary (by assumption) ?_
          | refine Advances.step hatom (by assumption) ?_
          | refine Advances.step hparen (by assumption) ?_
          | refine Advances.step hfunccall (by assumption) ?_
          | refine Advances.step hfuncargs (by assumption) ?_
          | refine Advances.step (hfuncargsLoop _) (by assumption) ?_)
    · intro s r s' h
      simp only [unary, save, restore] at h
      repeat' split at h
      all_goals first | cases h | skip
      all_goals
        repeat (first
          | exact List.suffix_refl _
          | refine step_whitespace ?_
          | refine step_id ?_
          | refine step_expectStr (by assumption) ?_
          | refine step_expect (by assumption) ?_
          | refine step_whitespace_eq (by assumption) ?_
          | refine step_variable_eq (by assumption) ?_
          | refine Advances.step hexpr (by assumption) ?_
          | refine Advances.step hsum (by assumption) ?_
          | refine Advances.step (hsumLoop _) (by assumption) ?_
          | refine Advances.step hproduct (by assumption) ?_
          | refine Advances.step (hproductLoop _) (by assumption) ?_
          | refine Advances.step hunary (by assumption) ?_
          | refine Advances.step hatom (by assumption) ?_
          | refine Advances.step hparen (by assumption) ?_
          | refine Advances.step hfunccall (by assumption) ?_
          | refine Advances.step hfuncargs (by assumption) ?_
          | refine Advances.step (hfuncargsLoop _) (by assumption) ?_)
    · intro s r s' h
      simp only [atom, save, restore] at h
      repeat' split at h
      all_goals first | cases h | skip
      all_goals
        repeat (first
          | exact List.suffix_refl _
          | refine step_whitespace ?_
          | refine step_id ?_
          | refine step_expectStr (by assumption) ?_
          | refine step_expect (by assumption) ?_
          | refine step_whitespace_eq (by assumption) ?_
          | refine step_variable_eq (by assumption) ?_
          | refine Advances.step hexpr (by assumption) ?_
          | refine Advances.step hsum (by assumption) ?_
          | refine Advances.step (hsumLoop _) (by assumption) ?_
          | refine Advances.step hproduct (by assumption) ?_
          | refine Advances.step (hproductLoop _) (by assumption) ?_
          | refine Advances.step hunary (by assumption) ?_
          | refine Advances.step hatom (by assumption) ?_
          | refine Advances.step hparen (by assumption) ?_
          | refine Advances.step hfunccall (by assumption) ?_
          | refine Advances.step hfuncargs (by assumption) ?_
          | refine Advances.step (hfuncargsLoop _) (by assumption) ?_)
    · intro s r s' h
      simp only [paren, save, restore] at h
      repeat' split at h
      all_goals first | cases h | skip
      all_goals
        repeat (first
          | exact List.suffix_refl _
          | refine step_whitespace ?_
          | refine step_id ?_
          | refine step_expectStr (by assumption) ?_
          | refine step_expect (by assumption) ?_
          | refine step_whitespace_eq (by assumption) ?_
          | refine step_variable_eq (by assumption) ?_
          | refine Advances.step hexpr (by assumption) ?_
          | refine Advances.step hsum (by assumption) ?_
          | refine Advances.step (hsumLoop _) (by assumption) ?_
          | refine Advances.step hproduct (by assumption) ?_
          | refine Advances.step (hproductLoop _) (by assumption) ?_
          | refine Advances.step hunary (by assumption) ?_
          | refine Advances.step hatom (by assumption) ?_
          | refine Advances.step hparen (by assumption) ?_
          | refine Advances.step hfunccall (by assumption) ?_
          | refine Advances.step hfuncargs (by assumption) ?_
          | refine Advances.step (hfuncargsLoop _) (by assumption) ?_)
    · intro s r s' h
      simp only [funccall, save, restore] at h
      repeat' split at h
      all_goals first | cases h | skip
      all_goals
        repeat (first
          | exact List.suffix_refl _
          | refine step_whitespace ?_
          | refine step_id ?_
          | refine step_expectStr (by assumption) ?_
          | refine step_expect (by assumption) ?_
          | refine step_whitespace_eq (by assumption) ?_
          | refine step_variable_eq (by assumption) ?_
          | refine Advances.step hexpr (by assumption) ?_
          | refine Advances.step hsum (by assumption) ?_
          | refine Advances.step (hsumLoop _) (by assumption) ?_
          | refine Advances.step hproduct (by assumption) ?_
          | refine Advances.step (hproductLoop _) (by assumption) ?_
          | refine Advances.step hunary (by assumption) ?_
          | refine Advances.step hatom (by assumption) ?_
          | refine Advances.step hparen (by assumption) ?_
          | refine Advances.step hfunccall (by assumption) ?_
          | refine Advances.step hfuncargs (by assumption) ?_
          | refine Advances.step (hfuncargsLoop _) (by assumption) ?_)
    · intro s r s' h
      simp only [funcargs, save, restore] at h
      repeat' split at h
      all_goals first | cases h | skip
      all_goals
        repeat (first
          | exact List.suffix_refl _
          | refine step_whitespace ?_
          | refine step_id ?_
          | refine step_expectStr (by assumption) ?_
          | refine step_expect (by assumption) ?_
          | refine step_whitespace_eq (by assumption) ?_
          | refine step_variable_eq (by assumption) ?_
          | refine Advances.step hexpr (by assumption) ?_
          | refine Advances.step hsum (by assumption) ?_
          | refine Advances.step (hsumLoop _) (by assumption) ?_
          | refine Advances.step hproduct (by assumption) ?_
          | refine Advances.step (hproductLoop _) (by assumption) ?_
          | refine Advances.step hunary (by assumption) ?_
          | refine Advances.step hatom (by assumption) ?_
          | refine Advances.step hparen (by assumption) ?_
          | refine Advances.step hfunccall (by assumption) ?_
          | refine Advances.step hfuncargs (by assumption) ?_
          | refine Advances.step (hfuncargsLoop _) (by assumption) ?_)
    · intro x s r s' h
      simp only [funcargsLoop, save, restore] at h
      repeat' split at h
      all_goals first | cases h | skip
      all_goals
        repeat (first
          | exact List.suffix_refl _
          | refine step_whitespace ?_
          | refine step_id ?_
          | refine step_expectStr (by assumption) ?_
          | refine step_expect (by assumption) ?_
          | refine step_whitespace_eq (by assumption) ?_
          | refine step_variable_eq (by assumption) ?_
          | refine Advances.step hexpr (by assumption) ?_
          | refine Advances.step hsum (by assumption) ?_
          | refine Advances.step (hsumLoop _) (by assumption) ?_
          | refine Advances.step hproduct (by assumption) ?_
          | refine Advances.step (hproductLoop _) (by assumption) ?_
          | refine Advances.step hunary (by assumption) ?_
          | refine Advances.step hatom (by assumption) ?_
          | refine Advances.step hparen (by assumption) ?_
          | refine Advances.step hfunccall (by assumption) ?_
          | refine Advances.step hfuncargs (by assumption) ?_
          | refine Advances.step (hfuncargsLoop _) (by assumption) ?_)


theorem Advances.of_map {α : Type} {f : Cursor → Option (Option α × Cursor)} (hf : Advances f)
    {s s' : Cursor} {b : Bool} (h : (f s).map outcome = some (b, s')) : s' <:+ s := by
  cases hfs : f s with
  | none => simp [hfs] at h
  | some x =>
    obtain ⟨r, s2⟩ := x
    simp only [hfs, Option.map_some', outcome, Option.some.injEq, Prod.mk.injEq] at h
    obtain ⟨-, rfl⟩ := h
    exact hf s r s2 hfs

/-! ## The empty parameter list (C4) -/

/-- C4. On `()` the production `funcpar` returns the absent result, whatever
the budget: after the opening parenthesis it requires a type. So `parse`
refuses `func f() { }`. -/
theorem funcpar_rejects_empty_list :
    (∀ fuel, funcpar (fuel + 1) "()".data = some (none, ")".data)) ∧
    (∀ fuel, funcdecl (fuel + 1) "func f() { }".data = some (none, ") { }".data)) ∧
    AnacondaParser.parse "func f() { }" = some none :=
  ⟨fun _ => rfl, fun _ => rfl, rfl⟩

/-! ## The recursive-structure check (C5, C6) -/

theorem checkTypesLoop_ok_iff (self : StructureDefinitionNode) (members : List Field) :
    self.checkTypesLoop members = Except.ok () ↔ ∀ f ∈ members, f.getType ≠ self.type := by
  induction members with
  | nil => simp [StructureDefinitionNode.checkTypesLoop]
  | cons it rest ih =>
    by_cases h : it.getType = self.type
    · simp [StructureDefinitionNode.checkTypesLoop, DataTypeBase.equals, h]
    · simp [StructureDefinitionNode.checkTypesLoop, DataTypeBase.equals, h, ih]

theorem checkTypesLoop_first (self : StructureDefinitionNode) (pre post : List Field)
    (it : Field) (hpre : ∀ f ∈ pre, f.getType ≠ self.type) (hit : it.getType = self.type) :
    self.checkTypesLoop (pre ++ it :: post) =
      Except.error (ProgramException.recursiveTypeException
        ("Structure " ++ self.name ++ " contains itself in member " ++ it.getName)) := by
  induction pre with
  | nil => simp [StructureDefinitionNode.checkTypesLoop, DataTypeBase.equals, hit]
  | cons g pre ih =>
    have hg : g.getType ≠ self.type := hpre g (List.mem_cons_self _ _)
    simp only [List.cons_append, StructureDefinitionNode.checkTypesLoop, DataTypeBase.equals,
      hg, decide_False, Bool.false_eq_true, if_false]
    exact ih (fun f hf => hpre f (List.mem_cons_of_mem _ hf))

theorem checkTypesLoop_error (self : StructureDefinitionNode) (members : List Field)
    (e : ProgramException) (h : self.checkTypesLoop members = Except.error e) :
    ∃ pre it post, members = pre ++ it :: post ∧ (∀ f ∈ pre, f.getType ≠ self.type) ∧
      it.getType = self.type := by
  induction members with
  | nil => simp [StructureDefinitionNode.checkTypesLoop] at h
  | cons g rest ih =>
    by_cases hg : g.getType = self.type
    · exact ⟨[], g, rest, rfl, by simp, hg⟩
    · simp only [StructureDefinitionNode.checkTypesLoop, DataTypeBase.equals, hg, decide_False,
        Bool.false_eq_true, if_false] at h
      obtain ⟨pre, it, post, rfl, hpre, hit⟩ := ih h
      refine ⟨g :: pre, it, post, rfl, ?_, hit⟩
      intro f hf
      rcases List.mem_cons.mp hf with rfl | hf
      · exact hg
      · exact hpre f hf

/-- C5. For every structure name `N`, every list of fields and every writer,
`checkTypes` raises the recursive-type fault if and only if some field has the
type descriptor `StructForwardReference(N)`, and it completes without a fault
if and only if no field has; the writer is left as it was. A field whose type
is a forward reference to another name does not count. -/
theorem checkTypes_faults_iff_self_member (N : String) (members : List Field)
    (writer : BrainfuckWriter) :
    ((∃ msg, ((StructureDefinitionNode.new N members).checkTypes writer).1 =
        Except.error (ProgramException.recursiveTypeException msg)) ↔
      ∃ f ∈ members, f.getType = DataTypeBase.structForward N) ∧
    (((StructureDefinitionNode.new N members).checkTypes writer).1 = Except.ok () ↔
      ∀ f ∈ members, f.getType ≠ DataTypeBase.structForward N) ∧
    ((StructureDefinitionNode.new N members).checkTypes writer).2 = writer := by
  refine ⟨⟨?_, ?_⟩, ?_, rfl⟩
  · rintro ⟨msg, h⟩
    obtain ⟨pre, it, post, hm, -, hit⟩ :=
      checkTypesLoop_error (StructureDefinitionNode.new N members) members _ h
    exact ⟨it, by simp [hm], hit⟩
  · rintro ⟨f, hf, hft⟩
    cases h : (StructureDefinitionNode.new N members).checkTypesLoop members with
    | ok u =>
      exact absurd hft
        ((checkTypesLoop_ok_iff (StructureDefinitionNode.new N members) members).mp h f hf)
    | error e =>
      obtain ⟨pre, it, post, hm, hpre, hit⟩ :=
        checkTypesLoop_error (StructureDefinitionNode.new N members) members e h
      have h2 := checkTypesLoop_first (StructureDefinitionNode.new N members) pre post it hpre hit
      rw [← hm, h] at h2
      exact ⟨_, by
        show (StructureDefinitionNode.new N members).checkTypesLoop members = _
        rw [h, h2]⟩
  · exact checkTypesLoop_ok_iff (StructureDefinitionNode.new N members) members

/-- The examples of C5: `struct S { a: S }` faults, `struct S { a: u8 }`
succeeds, and so does `struct S { a: T }`, whose field refers to another
structure. -/
theorem checkTypes_examples (writer : BrainfuckWriter) :
    ((StructureDefinitionNode.new "S"
        [Field.mk "a" (DataTypeBase.structForward "S")]).checkTypes writer).1 =
      Except.error (ProgramException.recursiveTypeException
        "Structure S contains itself in member a") ∧
    ((StructureDefinitionNode.new "S" [Field.mk "a" DataTypeBase.u8]).checkTypes writer).1 =
      Except.ok () ∧
    ((StructureDefinitionNode.new "S"
        [Field.mk "a" (DataTypeBase.structForward "T")]).checkTypes writer).1 =
      Except.ok () :=
  ⟨rfl, rfl, rfl⟩

/-- C6. Whenever `checkTypes` raises a fault for a structure named `N`, the
members split into the fields before the first field `F` whose type is
`StructForwardReference(N)`, that field, and the fields after it; the fault is
the recursive-type fault with the message `Structure N contains itself in
member F`; and the fields after `F` are not examined: with any other fields in
their place the fault is the same. -/
theorem checkTypes_fault_names_first_member (N : String) (members : List Field)
    (writer : BrainfuckWriter) (e : ProgramException)
    (h : ((StructureDefinitionNode.new N members).checkTypes writer).1 = Except.error e) :
    ∃ pre F post, members = pre ++ Field.mk F (DataTypeBase.structForward N) :: post ∧
      (∀ f ∈ pre, f.getType ≠ DataTypeBase.structForward N) ∧
      e = ProgramException.recursiveTypeException
        ("Structure " ++ N ++ " contains itself in member " ++ F) ∧
      ∀ post', ((StructureDefinitionNode.new N
          (pre ++ Field.mk F (DataTypeBase.structForward N) :: post')).checkTypes writer).1 =
        Except.error e := by
  obtain ⟨pre, it, post, hm, hpre, hit⟩ :=
    checkTypesLoop_error (StructureDefinitionNode.new N members) members e h
  obtain ⟨F, T⟩ := it
  have hT : T = DataTypeBase.structForward N := hit
  subst hT
  subst hm
  have h2 := checkTypesLoop_first (StructureDefinitionNode.new N
    (pre ++ Field.mk F (DataTypeBase.structForward N) :: post)) pre post
    (Field.mk F (DataTypeBase.structForward N)) hpre rfl
  have he : e = ProgramException.recursiveTypeException
      ("Structure " ++ N ++ " contains itself in member " ++ F) := by
    have h3 : (StructureDefinitionNode.new N
        (pre ++ Field.mk F (DataTypeBase.structForward N) :: post)).checkTypesLoop
        (pre ++ Field.mk F (DataTypeBase.structForward N) :: post) = Except.error e := h
    rw [h2] at h3
    exact (Except.error.inj h3).symm
  refine ⟨pre, F, post, rfl, hpre, he, ?_⟩
  intro post'
  rw [he]
  exact checkTypesLoop_first (StructureDefinitionNode.new N
    (pre ++ Field.mk F (DataTypeBase.structForward N) :: post')) pre post'
    (Field.mk F (DataTypeBase.structForward N)) hpre rfl

/-- An instance of C6: in `struct S { a: u8, b: S, c: S }` the fault names the
member `b`, the first of the two fields of type `S`. -/
theorem checkTypes_fault_names_first_member_witness :
    ((StructureDefinitionNode.new "S"
        [Field.mk "a" DataTypeBase.u8, Field.mk "b" (DataTypeBase.structForward "S"),
         Field.mk "c" (DataTypeBase.structForward "S")]).checkTypes ⟨""⟩).1 =
      Except.error (ProgramException.recursiveTypeException
        "Structure S contains itself in member b") ∧
    ∃ pre F post,
      [Field.mk "a" DataTypeBase.u8, Field.mk "b" (DataTypeBase.structForward "S"),
         Field.mk "c" (DataTypeBase.structForward "S")] =
        pre ++ Field.mk F (DataTypeBase.structForward "S") :: post ∧
      (∀ f ∈ pre, f.getType ≠ DataTypeBase.structForward "S") ∧
      ProgramException.recursiveTypeException "Structure S contains itself in member b" =
        ProgramException.recursiveTypeException
          ("Structure " ++ "S" ++ " contains itself in member " ++ F) ∧
      ∀ post', ((StructureDefinitionNode.new "S"
          (pre ++ Field.mk F (DataTypeBase.structForward "S") :: post')).checkTypes ⟨""⟩).1 =
        Except.error (ProgramException.recursiveTypeException
          "Structure S contains itself in member b") :=
  ⟨rfl, checkTypes_fault_names_first_member "S" _ ⟨""⟩ _ rfl⟩

/-! ## The assembly escape (C7, C8) -/

/-- C7. For every declared type `T`, raw text `s`, argument list `A` and
writer, `AssemblyNode::generate` completes without a fault and the output
stream afterwards is the output stream before followed by exactly `s`; the
result is the same for every other declared type and argument list. -/
theorem assembly_generate_copies_text (T T' : DataTypeBase) (s : String) (A A' : NodeMethods)
    (writer : BrainfuckWriter) :
    ((AssemblyNode.mk T s A).generate writer).1 = Except.ok () ∧
    ((AssemblyNode.mk T s A).generate writer).2.output = writer.output ++ s ∧
    (AssemblyNode.mk T s A).generate writer = (AssemblyNode.mk T' s A').generate writer :=
  ⟨rfl, rfl, rfl⟩

/-- The example of C7: the raw text `+++` is emitted as `+++`, here on an
empty output stream and with an argument list whose methods fault. -/
theorem assembly_generate_example :
    ((AssemblyNode.mk DataTypeBase.u8 "+++"
        ⟨fun w => (Except.error (ProgramException.typeCheckException "bad"), w),
         fun w => (Except.error ProgramException.unimplemented, w)⟩).generate ⟨""⟩).2.output
      = "+++" := by
  decide

/-- C8. For every assembly node and every writer, `AssemblyNode::checkTypes`
does exactly what type-checking the argument list does: it raises a fault if
and only if the argument list raises that fault, and it succeeds if and only
if the argument list type-checks. -/
theorem assembly_checkTypes_is_arguments_checkTypes (node : AssemblyNode)
    (writer : BrainfuckWriter) :
    node.checkTypes writer = node.arguments.checkTypes writer ∧
    (∀ e, (node.checkTypes writer).1 = Except.error e ↔
      (node.arguments.checkTypes writer).1 = Except.error e) ∧
    ((node.checkTypes writer).1 = Except.ok () ↔
      (node.arguments.checkTypes writer).1 = Except.ok ()) :=
  ⟨rfl, fun _ => Iff.rfl, Iff.rfl⟩

/-! ## The unimplemented operator (C9) -/

/-- C9. For every pair of operands and every writer,
`BitwiseRightShiftNode::generate` raises the unimplemented-operation fault and
leaves the writer, and so the output stream, as it was: whatever the operands
would generate is not emitted. -/
theorem bitwiseRightShift_generate_unimplemented (lop rop : NodeMethods)
    (writer : BrainfuckWriter) :
    ((BitwiseRightShiftNode.mk lop rop).generate writer).1 =
      Except.error ProgramException.unimplemented ∧
    ((BitwiseRightShiftNode.mk lop rop).generate writer).2 = writer :=
  ⟨rfl, rfl⟩


/-! ## Expressions: `product` returns no node (C10) -/

theorem productLoop_absent (fuel : Nat) :
    ∀ lhs s r s', productLoop fuel lhs s = some (r, s') → r = none := by
  induction fuel with
  | zero => intro lhs s r s' h; simp [productLoop] at h
  | succ fuel ih =>
    intro lhs s r s' h
    simp only [productLoop] at h
    repeat' split at h
    all_goals first | cases h | skip
    all_goals first | rfl | exact ih _ _ _ _ h

/-- Whatever the input and the budget, `product` returns no node: every path
through it ends in `return nullptr`. So do `sum` and `expr`, which return a
node only when `product` has returned one. -/
theorem product_absent (fuel : Nat) (s s' : Cursor) (r : Option ExpressionNode) :
    (product fuel s = some (r, s') → r = none) ∧
    (sum fuel s = some (r, s') → r = none) ∧
    (expr fuel s = some (r, s') → r = none) := by
  have hp : ∀ fuel s s' r, product fuel s = some (r, s') → r = none := by
    intro fuel s s' r h
    cases fuel with
    | zero => simp [product] at h
    | succ fuel =>
      simp only [product] at h
      repeat' split at h
      all_goals first | cases h | skip
      all_goals first | rfl | exact productLoop_absent _ _ _ _ _ h
  have hs : ∀ fuel s s' r, sum fuel s = some (r, s') → r = none := by
    intro fuel s s' r h
    cases fuel with
    | zero => simp [sum] at h
    | succ fuel =>
      simp only [sum] at h
      repeat' split at h
      all_goals first | cases h | skip
      all_goals first | rfl | skip
      rename_i heq
      exact absurd (hp _ _ _ _ heq) (by simp)
  refine ⟨hp fuel s s' r, hs fuel s s' r, ?_⟩
  intro h
  cases fuel with
  | zero => simp [expr] at h
  | succ fuel => exact hs fuel s s' r h

theorem expect_identifier (d : Char) (hd : d.isAlpha = false) (n : Cursor)
    (hn : isIdentifier n = true) : expect d n = (false, n) := by
  cases n with
  | nil => rfl
  | cons c t =>
    simp only [isIdentifier, Bool.and_eq_true] at hn
    have hne : c ≠ d := by
      rintro rfl
      rw [hn.1] at hd
      exact absurd hd (by simp)
    simp [expect, hne]

theorem expect_nil (d : Char) : expect d [] = (false, []) := rfl

theorem paren_identifier (fuel : Nat) (n : Cursor) (hn : isIdentifier n = true) :
    paren (fuel + 1) n = some (none, n) := by
  have h2 := whitespace_identifier n [] hn
  rw [List.append_nil] at h2
  simp [paren, h2, expect_identifier '(' (by decide) n hn]

theorem funccall_identifier (fuel : Nat) (n : Cursor) (hn : isIdentifier n = true) :
    funccall (fuel + 1) n = some (none, []) := by
  have h1 := id_append n [] hn rfl
  have h2 := whitespace_identifier n [] hn
  rw [List.append_nil] at h1 h2
  simp [funccall, h1, h2, mk_ne_empty_of_isIdentifier n hn, whitespace_nil, expect_nil]

theorem variable_identifier (n : Cursor) (hn : isIdentifier n = true) :
    variable_ n = (some (ExpressionNode.variable (String.mk n)), []) := by
  have h1 := id_append n [] hn rfl
  have h2 := whitespace_identifier n [] hn
  rw [List.append_nil] at h1 h2
  simp [variable_, h1, h2, mk_ne_empty_of_isIdentifier n hn]

theorem atom_identifier (fuel : Nat) (n : Cursor) (hn : isIdentifier n = true) :
    atom (fuel + 2) n = some (some (ExpressionNode.variable (String.mk n)), []) := by
  simp [atom, save, restore, paren_identifier fuel n hn, funccall_identifier fuel n hn,
    variable_identifier n hn]

/-- On an identifier, `unary` returns the variable node and leaves the cursor
at the end of the input. -/
theorem unary_identifier (fuel : Nat) (n : Cursor) (hn : isIdentifier n = true) :
    unary (fuel + 3) n = some (some (ExpressionNode.variable (String.mk n)), []) := by
  have h2 := whitespace_identifier n [] hn
  rw [List.append_nil] at h2
  rw [unary]
  simp [h2, expect_identifier '-' (by decide) n hn, atom_identifier fuel n hn]

/-- C10 on the code. For every identifier `x`, `product` applied to the input
text `x` reads the variable and then returns the absent result with the
cursor at the end of the input, and so do `sum` and `expr`: none of them
returns `Variable(x)`. -/
theorem expr_identifier_absent (x : String) (hx : isIdentifier x.data = true) (fuel : Nat) :
    expr (fuel + 6) x.data = some (none, []) ∧
    sum (fuel + 5) x.data = some (none, []) ∧
    product (fuel + 4) x.data = some (none, []) := by
  have hp : product (fuel + 4) x.data = some (none, []) := by
    simp [product, productLoop, unary_identifier fuel x.data hx, whitespace_nil, peek]
  have hs : sum (fuel + 5) x.data = some (none, []) := by
    simp [sum, hp]
  exact ⟨by simp [expr, hs], hs, hp⟩

/-- The instance of C10 for the text `x`, where `unary` does return
`Variable(x)`. -/
theorem expr_identifier_absent_witness :
    isIdentifier "x".data = true ∧
    unary 3 "x".data = some (some (ExpressionNode.variable "x"), []) ∧
    expr 6 "x".data = some (none, []) ∧
    sum 5 "x".data = some (none, []) ∧
    product 4 "x".data = some (none, []) :=
  ⟨by decide, rfl, expr_identifier_absent "x" (by decide) 0⟩


/-! ## The statements are stubbed (C14) -/

theorem ifstat_absent (s : Cursor) : (ifstat s).1 = none := by
  simp only [ifstat]
  repeat' split
  all_goals rfl

theorem statlistLoop_succ (fuel : Nat) (list : Option StatementListNode) (s : Cursor) :
    statlistLoop (fuel + 1) list s = some (list, (statement s).2) := by
  have h := ifstat_absent s
  simp only [statlistLoop]
  cases hs : statement s with
  | mk r s1 =>
    have hr : r = none := by
      have h2 : (statement s).1 = none := h
      rw [hs] at h2
      exact h2
    subst hr
    rfl

theorem block_node_empty (fuel : Nat) (s s' : Cursor) (b : BlockNode)
    (h : block fuel s = some (some b, s')) : b = BlockNode.mk none := by
  cases fuel with
  | zero =>
    simp only [block, statlist, statlistLoop] at h
    repeat' split at h
    all_goals cases h
  | succ fuel =>
    simp only [block, statlist, statlistLoop_succ] at h
    repeat' split at h
    all_goals first | cases h | skip
    all_goals rfl

/-- C14. For every input, `statement` and `ifstat` return the absent result;
so `statlist`, given any budget, returns the empty list (the null pointer) and
leaves the cursor where `statement` left it, and every `BlockNode` that `block`
returns has the empty statement list. -/
theorem statement_always_absent (s : Cursor) (fuel : Nat) :
    (statement s).1 = none ∧ (ifstat s).1 = none ∧
    statlist (fuel + 1) s = some (none, (statement s).2) ∧
    ∀ (b : BlockNode) (s' : Cursor), block fuel s = some (some b, s') → b = BlockNode.mk none :=
  ⟨ifstat_absent s, ifstat_absent s, statlistLoop_succ fuel none s,
    fun b s' h => block_node_empty fuel s s' b h⟩

/-- An instance of C14: `statement` on `if x` returns the absent result, and the
block that `block` returns on `{ }` has no statement. -/
theorem statement_always_absent_witness :
    (statement "if x".data).1 = none ∧
    block 1 "{ }".data = some (some (BlockNode.mk none), []) ∧
    BlockNode.mk none = BlockNode.mk none :=
  ⟨(statement_always_absent "if x".data 0).1, rfl,
    (statement_always_absent "{ }".data 1).2.2.2 (BlockNode.mk none) [] rfl⟩


/-! ## The identifiers that `id` reads (C17) -/

theorem idLoop_eq_dropWhile (s : Cursor) :
    idLoop s = s.dropWhile (fun d => d.isAlpha || d == '_') := by
  induction s with
  | nil => rfl
  | cons c t ih =>
    by_cases hc : c.isAlpha = true
    · simp [idLoop, expectLetter, List.dropWhile, hc, ih]
    · by_cases hu : c = '_'
      · simp [idLoop, expectLetter, expect, List.dropWhile, hu, ih]
      · have hb : (c == '_') = false := by simp [hu]
        simp [idLoop, expectLetter, expect, List.dropWhile, hc, hu, hb]

theorem id_of_letter (c : Char) (t : Cursor) (hc : c.isAlpha = true) :
    AnacondaParser.id (c :: t) =
      (String.mk (c :: t.takeWhile (fun d => d.isAlpha || d == '_')),
        t.dropWhile (fun d => d.isAlpha || d == '_')) := by
  have h := endCapture_append (c :: t.takeWhile (fun d => d.isAlpha || d == '_'))
    (t.dropWhile (fun d => d.isAlpha || d == '_'))
  simp only [List.cons_append, List.takeWhile_append_dropWhile] at h
  simp [AnacondaParser.id, expectLetter, hc, idLoop_eq_dropWhile, beginCapture, h]

theorem id_of_not_letter (s : Cursor) (h : ∀ c ∈ s.head?, c.isAlpha = false) :
    AnacondaParser.id s = ("", s) := by
  cases s with
  | nil => rfl
  | cons c t =>
    have hc : c.isAlpha = false := h c (by simp)
    simp [AnacondaParser.id, expectLetter, hc]

theorem isIdentifier_prefix_le (c : Char) (t p : Cursor) (hp : p <+: c :: t)
    (hid : isIdentifier p = true) :
    p.length ≤ (c :: t.takeWhile (fun d => d.isAlpha || d == '_')).length := by
  cases p with
  | nil => simp
  | cons a q =>
    simp only [isIdentifier, Bool.and_eq_true] at hid
    obtain ⟨rest, hrest⟩ := hp
    simp only [List.cons_append, List.cons.injEq] at hrest
    obtain ⟨-, hq⟩ := hrest
    subst hq
    have hall : ∀ d ∈ q, (fun d : Char => d.isAlpha || d == '_') d = true := by
      simpa using hid.2
    rw [List.takeWhile_append_of_pos hall]
    simp

/-- C17. For every cursor, `id` splits the remaining input into the text it
returns and the text it leaves: the returned text is empty or an identifier
(one letter followed by letters or underscores), no start of the remaining
input that is an identifier is longer than it, and the cursor has advanced by
exactly its length. When the next character is not a letter, or there is
none, `id` returns the empty string and leaves the cursor unchanged. -/
theorem id_longest_identifier (s : Cursor) :
    (AnacondaParser.id s).1.data ++ (AnacondaParser.id s).2 = s ∧
    (AnacondaParser.id s).2 = s.drop (AnacondaParser.id s).1.data.length ∧
    ((AnacondaParser.id s).1 = "" ∨ isIdentifier (AnacondaParser.id s).1.data = true) ∧
    (∀ p : Cursor, p <+: s → isIdentifier p = true →
      p.length ≤ (AnacondaParser.id s).1.data.length) ∧
    ((∀ c ∈ s.head?, c.isAlpha = false) → AnacondaParser.id s = ("", s)) := by
  have hsplit : (AnacondaParser.id s).1.data ++ (AnacondaParser.id s).2 = s ∧
      ((AnacondaParser.id s).1 = "" ∨ isIdentifier (AnacondaParser.id s).1.data = true) ∧
      (∀ p : Cursor, p <+: s → isIdentifier p = true →
        p.length ≤ (AnacondaParser.id s).1.data.length) := by
    cases s with
    | nil =>
      refine ⟨rfl, Or.inl rfl, ?_⟩
      intro p hp hid
      have hp0 : p = [] := List.prefix_nil.mp hp
      subst hp0
      simp
    | cons c t =>
      by_cases hc : c.isAlpha = true
      · rw [id_of_letter c t hc]
        refine ⟨by simp, Or.inr ?_, ?_⟩
        · simp only [isIdentifier, hc, Bool.true_and, List.all_eq_true]
          intro d hd
          exact List.mem_takeWhile_imp (p := fun d : Char => d.isAlpha || d == '_') hd
        · intro p hp hid
          exact isIdentifier_prefix_le c t p hp hid
      · have hc' : c.isAlpha = false := by simpa using hc
        rw [id_of_not_letter (c :: t) (by simpa using hc')]
        refine ⟨rfl, Or.inl rfl, ?_⟩
        intro p hp hid
        cases p with
        | nil => simp
        | cons a q =>
          obtain ⟨rest, hrest⟩ := hp
          simp only [List.cons_append, List.cons.injEq] at hrest
          simp only [isIdentifier, Bool.and_eq_true] at hid
          rw [hrest.1, hc'] at hid
          exact absurd hid.1 (by simp)
  refine ⟨hsplit.1, ?_, hsplit.2.1, hsplit.2.2, id_of_not_letter s⟩
  have h := congrArg (List.drop (AnacondaParser.id s).1.data.length) hsplit.1
  rw [List.drop_left] at h
  exact h

/-- The instance of C17 on `ab_c(x`: `id` returns `ab_c` and leaves `(x`; on
`_a`, `1a` and the empty input it returns the empty string. -/
theorem id_longest_identifier_witness :
    AnacondaParser.id "ab_c(x".data = ("ab_c", "(x".data) ∧
    AnacondaParser.id "_a".data = ("", "_a".data) ∧
    AnacondaParser.id "1a".data = ("", "1a".data) ∧
    AnacondaParser.id [] = ("", []) :=
  ⟨by decide, (id_longest_identifier "_a".data).2.2.2.2 (by decide),
    (id_longest_identifier "1a".data).2.2.2.2 (by decide), rfl⟩


/-! ## The return type of a declaration (C18) -/

/-- What `type` returns when it returns a descriptor: `u8` when the text after
the blanks starts with `u8`, else the forward reference to the structure named
by the identifier that stands there. -/
theorem type_descriptor {s s' : Cursor} {t : DataTypeBase}
    (h : AnacondaParser.type s = (some t, s')) :
    ((expectStr "u8" (whitespace s).2).1 = true ∧ t = DataTypeBase.u8) ∨
    ((expectStr "u8" (whitespace s).2).1 = false ∧
      (AnacondaParser.id (whitespace s).2).1 ≠ "" ∧
      t = DataTypeBase.structForward (AnacondaParser.id (whitespace s).2).1) := by
  simp only [AnacondaParser.type] at h
  cases h1 : expectStr "u8" (whitespace s).2 with
  | mk b s2 =>
    rw [h1] at h
    cases b with
    | true =>
      simp only [Prod.mk.injEq, Option.some.injEq] at h
      exact Or.inl ⟨rfl, h.1.symm⟩
    | false =>
      have hs2 : s2 = (whitespace s).2 := by
        simp only [expectStr] at h1
        split at h1
        · cases h1
        · exact (Prod.mk.inj h1).2.symm
      subst hs2
      simp only at h
      split at h
      · cases h
      · rename_i hn
        simp only [Prod.mk.injEq, Option.some.injEq] at h
        exact Or.inr ⟨rfl, hn, h.1.symm⟩

/-- C18. Whenever `funcdecl` called at the cursor `s` returns a declaration
and leaves the cursor at `s'`: the name is the identifier that `id` read after
the keyword and the blanks, `funcpar` was called right after the name and
returned the declaration's parameters, leaving a cursor `s5`; and after the
optional blanks at `s5`: if `->` does not follow, the return type is `Void`
and the body is the block there, ending at `s'`; if `->` follows, the return
type is the descriptor that `type` returns on the text after it, which is `u8`
when `u8` stands there and else the forward reference to the structure named
by the identifier that stands there, and the body is the block after the
type, ending at `s'`. -/
theorem funcdecl_return_type (fuel : Nat) (s s' : Cursor) (name : String)
    (parameters : FunctionParameters) (rtype : DataTypeBase) (body : BlockNode)
    (h : funcdecl fuel s =
      some (some (StatementNode.functionDeclaration name parameters rtype body), s')) :
    name = (AnacondaParser.id (whitespace (expectStr "func" (whitespace s).2).2).2).1 ∧
    ∃ s5,
      funcpar fuel (AnacondaParser.id (whitespace (expectStr "func" (whitespace s).2).2).2).2 =
        some (some parameters, s5) ∧
      ((expectStr "->" (whitespace s5).2).1 = false →
        rtype = DataTypeBase.void ∧
        block fuel (expectStr "->" (whitespace s5).2).2 = some (some body, s')) ∧
      ((expectStr "->" (whitespace s5).2).1 = true →
        ∃ s8, AnacondaParser.type (expectStr "->" (whitespace s5).2).2 = (some rtype, s8) ∧
          (((expectStr "u8" (whitespace (expectStr "->" (whitespace s5).2).2).2).1 = true ∧
              rtype = DataTypeBase.u8) ∨
            ((expectStr "u8" (whitespace (expectStr "->" (whitespace s5).2).2).2).1 = false ∧
              (AnacondaParser.id (whitespace (expectStr "->" (whitespace s5).2).2).2).1 ≠ "" ∧
              rtype = DataTypeBase.structForward
                (AnacondaParser.id (whitespace (expectStr "->" (whitespace s5).2).2).2).1)) ∧
          block fuel s8 = some (some body, s')) := by
  simp only [funcdecl] at h
  cases h1 : expectStr "func" (whitespace s).2 with
  | mk b1 s2 =>
    rw [h1] at h
    cases b1 with
    | false => cases h
    | true =>
      simp only at h
      cases h2 : whitespace s2 with
      | mk b2 s3 =>
        rw [h2] at h
        cases b2 with
        | false => cases h
        | true =>
          simp only at h
          split at h
          · cases h
          · cases h3 : funcpar fuel (AnacondaParser.id s3).2 with
            | none => rw [h3] at h; cases h
            | some x =>
              obtain ⟨r, s5⟩ := x
              rw [h3] at h
              cases r with
              | none => cases h
              | some ps =>
                simp only at h
                cases h4 : expectStr "->" (whitespace s5).2 with
                | mk b4 s7 =>
                  rw [h4] at h
                  cases b4 with
                  | true =>
                    simp only at h
                    cases h5 : AnacondaParser.type s7 with
                    | mk rt s8 =>
                      rw [h5] at h
                      cases rt with
                      | none => cases h
                      | some rt1 =>
                        simp only at h
                        cases h6 : block fuel s8 with
                        | none => rw [h6] at h; cases h
                        | some y =>
                          obtain ⟨b, s9⟩ := y
                          rw [h6] at h
                          cases b with
                          | none => cases h
                          | some bn =>
                            cases h
                            refine ⟨rfl, s5, rfl, ?_, ?_⟩
                            · intro hno
                              rw [h4] at hno
                              cases hno
                            · intro _
                              rw [h4]
                              exact ⟨s8, h5, type_descriptor h5, h6⟩
                  | false =>
                    simp only at h
                    cases h6 : block fuel s7 with
                    | none => rw [h6] at h; cases h
                    | some y =>
                      obtain ⟨b, s9⟩ := y
                      rw [h6] at h
                      cases b with
                      | none => cases h
                      | some bn =>
                        cases h
                        refine ⟨rfl, s5, rfl, ?_, ?_⟩
                        · intro _
                          rw [h4]
                          exact ⟨rfl, h6⟩
                        · intro hyes
                          rw [h4] at hyes
                          cases hyes

/-- Instances of C18: without `->` the declaration has the return type `Void`,
with `-> u8` it has `u8`, with `-> S` the forward reference to `S`; for the
last one, `funcpar` is called at `(u8 x) -> S { }`, and `->` follows the cursor
it leaves. -/
theorem funcdecl_return_type_witness :
    funcdecl 1 "func f(u8 x) { }".data =
      some (some (StatementNode.functionDeclaration "f" ⟨[("x", DataTypeBase.u8)]⟩
        DataTypeBase.void (BlockNode.mk none)), []) ∧
    funcdecl 1 "func f(u8 x) -> u8 { }".data =
      some (some (StatementNode.functionDeclaration "f" ⟨[("x", DataTypeBase.u8)]⟩
        DataTypeBase.u8 (BlockNode.mk none)), []) ∧
    funcdecl 1 "func f(u8 x) -> S { }".data =
      some (some (StatementNode.functionDeclaration "f" ⟨[("x", DataTypeBase.u8)]⟩
        (DataTypeBase.structForward "S") (BlockNode.mk none)), []) ∧
    ∃ s5,
      funcpar 1 "(u8 x) -> S { }".data = some (some ⟨[("x", DataTypeBase.u8)]⟩, s5) ∧
      ((expectStr "->" (whitespace s5).2).1 = false →
        DataTypeBase.structForward "S" = DataTypeBase.void ∧
        block 1 (expectStr "->" (whitespace s5).2).2 = some (some (BlockNode.mk none), [])) ∧
      ((expectStr "->" (whitespace s5).2).1 = true →
        ∃ s8, AnacondaParser.type (expectStr "->" (whitespace s5).2).2 =
            (some (DataTypeBase.structForward "S"), s8) ∧
          (((expectStr "u8" (whitespace (expectStr "->" (whitespace s5).2).2).2).1 = true ∧
              DataTypeBase.structForward "S" = DataTypeBase.u8) ∨
            ((expectStr "u8" (whitespace (expectStr "->" (whitespace s5).2).2).2).1 = false ∧
              (AnacondaParser.id (whitespace (expectStr "->" (whitespace s5).2).2).2).1 ≠ "" ∧
              DataTypeBase.structForward "S" = DataTypeBase.structForward
                (AnacondaParser.id (whitespace (expectStr "->" (whitespace s5).2).2).2).1)) ∧
          block 1 s8 = some (some (BlockNode.mk none), [])) :=
  ⟨rfl, rfl, rfl,
    (funcdecl_return_type 1 "func f(u8 x) -> S { }".data [] "f" ⟨[("x", DataTypeBase.u8)]⟩
      (DataTypeBase.structForward "S") (BlockNode.mk none) rfl).2⟩

/-! ## Negation and calls (C11, C12) -/

theorem expr_absent {fuel : Nat} {s s' : Cursor} {r : Option ExpressionNode}
    (h : expr fuel s = some (r, s')) : r = none :=
  (product_absent fuel s s' r).2.2 h

theorem paren_absent {fuel : Nat} {s s' : Cursor} {r : Option ExpressionNode}
    (h : paren fuel s = some (r, s')) : r = none := by
  cases fuel with
  | zero => simp [paren] at h
  | succ fuel =>
    simp only [paren] at h
    repeat' split at h
    all_goals first | cases h | skip
    all_goals first | rfl | skip
    all_goals
      have hx := expr_absent (by assumption)
      cases hx

theorem funcargsLoop_absent {fuel : Nat} {arguments : List ExpressionNode} {s s' : Cursor}
    {r : Option (List ExpressionNode)} (h : funcargsLoop fuel arguments s = some (r, s')) :
    r = none := by
  cases fuel with
  | zero => simp [funcargsLoop] at h
  | succ fuel =>
    simp only [funcargsLoop] at h
    repeat' split at h
    all_goals first | cases h | skip
    all_goals first | rfl | skip
    all_goals
      have hx := expr_absent (by assumption)
      cases hx

theorem funcargs_absent {fuel : Nat} {s s' : Cursor} {r : Option (List ExpressionNode)}
    (h : funcargs fuel s = some (r, s')) : r = none := by
  cases fuel with
  | zero => simp [funcargs] at h
  | succ fuel =>
    simp only [funcargs] at h
    repeat' split at h
    all_goals first | cases h | skip
    all_goals first | rfl | exact funcargsLoop_absent h

theorem funccall_node {fuel : Nat} {s s' : Cursor} {e : ExpressionNode}
    (h : funccall fuel s = some (some e, s')) :
    ∃ name, e = ExpressionNode.functionCall name none := by
  cases fuel with
  | zero => simp [funccall] at h
  | succ fuel =>
    simp only [funccall] at h
    repeat' split at h
    all_goals first | cases h | skip
    have hx := funcargs_absent (by assumption)
    subst hx
    exact ⟨_, rfl⟩

theorem variable_node {s s' : Cursor} {e : ExpressionNode}
    (h : variable_ s = (some e, s')) : ∃ name, e = ExpressionNode.variable name := by
  simp only [variable_] at h
  split at h
  · cases h
  · cases h
    exact ⟨_, rfl⟩

/-- A node that `atom` returns is a variable or a call whose argument list is
the null pointer. -/
theorem atom_node {fuel : Nat} {s s' : Cursor} {e : ExpressionNode}
    (h : atom fuel s = some (some e, s')) :
    (∃ name, e = ExpressionNode.variable name) ∨
      ∃ name, e = ExpressionNode.functionCall name none := by
  cases fuel with
  | zero => simp [atom] at h
  | succ fuel =>
    simp only [atom, save, restore] at h
    repeat' split at h
    all_goals first | cases h | skip
    · have hx := paren_absent (by assumption)
      cases hx
    · exact Or.inr (funccall_node (by assumption))
    · exact Or.inl (variable_node (by assumption))

/-- A node that `unary` returns is a variable, a call whose argument list is
the null pointer, or a negation whose operand is the null pointer. -/
theorem unary_node {fuel : Nat} {s s' : Cursor} {e : ExpressionNode}
    (h : unary fuel s = some (some e, s')) :
    (∃ name, e = ExpressionNode.variable name) ∨
      (∃ name, e = ExpressionNode.functionCall name none) ∨
      e = ExpressionNode.negate none := by
  cases fuel with
  | zero => simp [unary] at h
  | succ fuel =>
    simp only [unary] at h
    repeat' split at h
    all_goals first | cases h | skip
    · exact Or.inr (Or.inr rfl)
    · rcases atom_node h with h1 | h1
      · exact Or.inl h1
      · exact Or.inr (Or.inl h1)
    · rcases atom_node h with h1 | h1
      · exact Or.inl h1
      · exact Or.inr (Or.inl h1)

theorem atom_nil (fuel : Nat) : atom (fuel + 2) [] = some (none, []) := by
  simp [atom, paren, funccall, variable_, save, restore, whitespace_nil, expect_nil,
    AnacondaParser.id, expectLetter]

theorem unary_cons_minus (fuel : Nat) (s : Cursor) :
    unary (fuel + 1) ('-' :: s) =
      match unary fuel s with
      | none => none
      | some (none, s3) => some (some (ExpressionNode.negate none), s3)
      | some (some _, s3) => atom fuel s3 := by
  have hw : whitespace ('-' :: s) = (false, '-' :: s) := whitespace_cons_of_not (by decide)
  simp [unary, hw, expect]

/-- C11 on the code. For every identifier `x`, `unary` reads `x` as
`Variable(x)`, but applied to `-x` it returns the absent result with the
cursor at the end of the input: the node of the operand is dropped and `atom`
is tried on what follows it. In general, when `unary` returns a node `e` on
the text after `-`, leaving the cursor at `s3`, `unary` on `-` and that text
returns what `atom` returns at `s3`, which is never `Negate(e)`. -/
theorem unary_minus_drops_operand (x : String) (hx : isIdentifier x.data = true)
    (fuel : Nat) :
    unary (fuel + 3) x.data = some (some (ExpressionNode.variable x), []) ∧
    unary (fuel + 4) ('-' :: x.data) = some (none, []) ∧
    ∀ (s s3 : Cursor) (e : ExpressionNode), unary fuel s = some (some e, s3) →
      unary (fuel + 1) ('-' :: s) = atom fuel s3 ∧
      ∀ s', unary (fuel + 1) ('-' :: s) ≠ some (some (ExpressionNode.negate (some e)), s') := by
  refine ⟨unary_identifier fuel x.data hx, ?_, ?_⟩
  · rw [unary_cons_minus, unary_identifier fuel x.data hx]
    exact atom_nil (fuel + 1)
  · intro s s3 e h
    have h1 : unary (fuel + 1) ('-' :: s) = atom fuel s3 := by
      rw [unary_cons_minus, h]
    refine ⟨h1, ?_⟩
    intro s' h2
    rw [h1] at h2
    rcases atom_node h2 with ⟨name, h3⟩ | ⟨name, h3⟩ <;> cases h3

/-- The instance of C11 for `-x`: `unary` returns the absent result, where
the specification expects `Negate(Variable(x))`. -/
theorem unary_minus_drops_operand_witness :
    isIdentifier "x".data = true ∧
    unary 3 "x".data = some (some (ExpressionNode.variable "x"), []) ∧
    unary 4 "-x".data = some (none, []) :=
  ⟨by decide, (unary_minus_drops_operand "x" (by decide) 0).1,
    (unary_minus_drops_operand "x" (by decide) 0).2.1⟩

/-- C12 on the code. Whenever `unary` returns a `Negate` node, its operand is
the null pointer, the result of the failed inner `unary`; and whenever
`funccall` returns a `FunctionCall` node, its argument list is the null
pointer that `funcargs` returned on failing. -/
theorem negate_and_call_hold_failed_subparse :
    (∀ (fuel : Nat) (s s' : Cursor) (o : Option ExpressionNode),
      unary fuel s = some (some (ExpressionNode.negate o), s') → o = none) ∧
    (∀ (fuel : Nat) (s s' : Cursor) (name : String) (args : Option (List ExpressionNode)),
      funccall fuel s = some (some (ExpressionNode.functionCall name args), s') →
        args = none ∧ ∃ s4 s5, funcargs (fuel - 1) s4 = some (none, s5)) := by
  constructor
  · intro fuel s s' o h
    rcases unary_node h with ⟨name, h1⟩ | ⟨name, h1⟩ | h1 <;> cases h1
    rfl
  · intro fuel s s' name args h
    obtain ⟨name', h1⟩ := funccall_node h
    cases h1
    refine ⟨rfl, ?_⟩
    cases fuel with
    | zero => simp [funccall] at h
    | succ fuel =>
      simp only [funccall] at h
      repeat' split at h
      all_goals first | cases h | skip
      exact ⟨_, _, by assumption⟩

/-- The instances of C12: on `-` the production `unary` returns
`Negate(nullptr)`, and on `f()` the production `funccall` returns a call whose
argument list is the null pointer. -/
theorem negate_and_call_hold_failed_subparse_witness :
    unary 4 "-".data = some (some (ExpressionNode.negate none), []) ∧
    funccall 2 "f()".data = some (some (ExpressionNode.functionCall "f" none), []) ∧
    funcargs 1 ")".data = some (none, ")".data) ∧
    (none : Option ExpressionNode) = none ∧
    (none : Option (List ExpressionNode)) = none :=
  ⟨rfl, rfl, rfl,
    negate_and_call_hold_failed_subparse.1 4 "-".data [] none rfl,
    (negate_and_call_hold_failed_subparse.2 2 "f()".data [] "f" none rfl).1⟩


/-! ## Budgets: more budget changes nothing, and the length of the input is enough -/

theorem lt_of_expect_true {c : Char} {s1 s2 s : Cursor} (h : expect c s1 = (true, s2))
    (hs : s1 <:+ s) : s2.length < s.length := by
  have hle := hs.length_le
  unfold expect at h
  split at h
  · split at h <;> cases h
    simp only [List.length_cons] at hle
    omega
  · cases h

theorem lt_of_expectStr_func {s1 s2 s : Cursor} (h : expectStr "func" s1 = (true, s2))
    (hs : s1 <:+ s) : s2.length < s.length := by
  have hle := hs.length_le
  unfold expectStr at h
  split at h
  · rename_i hp
    cases h
    have hlen := (List.isPrefixOf_iff_prefix.mp hp).length_le
    have h4 : "func".data.length = 4 := rfl
    rw [h4] at hlen
    have hd : (List.drop "func".data.length s1).length = s1.length - 4 := by
      rw [List.length_drop, h4]
    rw [hd]
    omega
  · cases h

theorem funcparLoop_mono (fuel : Nat) :
    ∀ (parameters : ParameterMap) (s s' : Cursor) (r : Option FunctionParameters),
      funcparLoop fuel parameters s = some (r, s') →
        funcparLoop (fuel + 1) parameters s = some (r, s') := by
  induction fuel with
  | zero => intro parameters s s' r h; simp [funcparLoop] at h
  | succ fuel ih =>
    intro parameters s s' r h
    rw [funcparLoop] at h ⊢
    simp only at h ⊢
    repeat' split at h
    all_goals first | cases h | skip
    all_goals (try simp only [*, if_true, if_false])
    all_goals exact ih _ _ _ _ (by assumption)

theorem funcparLoop_returns (fuel : Nat) :
    ∀ (parameters : ParameterMap) (s : Cursor), s.length < fuel →
      (funcparLoop fuel parameters s).isSome = true := by
  induction fuel with
  | zero => intro parameters s h; omega
  | succ fuel ih =>
    intro parameters s h
    rw [funcparLoop]
    simp only
    repeat' split
    all_goals first | rfl | skip
    apply ih
    refine Nat.lt_of_lt_of_le (lt_of_expect_true (s := s) (by assumption) ?_) (by omega)
    repeat (first
      | exact List.suffix_refl _
      | refine step_whitespace ?_
      | refine step_id ?_
      | refine step_expect (by assumption) ?_
      | refine step_whitespace_eq (by assumption) ?_
      | refine step_type_eq (by assumption) ?_)

theorem funcpar_mono (fuel : Nat) (s s' : Cursor) (r : Option FunctionParameters)
    (h : funcpar fuel s = some (r, s')) : funcpar (fuel + 1) s = some (r, s') := by
  simp only [funcpar] at h ⊢
  repeat' split at h
  all_goals first | cases h | skip
  all_goals (try simp only [*, if_true, if_false])
  all_goals exact funcparLoop_mono _ _ _ _ _ (by assumption)

theorem funcpar_returns (fuel : Nat) (s : Cursor) (h : s.length < fuel) :
    (funcpar fuel s).isSome = true := by
  simp only [funcpar]
  repeat' split
  all_goals first | rfl | skip
  apply funcparLoop_returns
  refine Nat.lt_of_lt_of_le (lt_of_expect_true (s := s) (by assumption) ?_) (by omega)
  exact step_whitespace (List.suffix_refl _)

theorem block_mono (fuel : Nat) (s s' : Cursor) (r : Option BlockNode)
    (h : block fuel s = some (r, s')) : block (fuel + 1) s = some (r, s') := by
  cases fuel with
  | zero =>
    simp only [block, statlist, statlistLoop] at h
    simp only [block, statlist, statlistLoop_succ]
    repeat' split at h
    all_goals first | cases h | skip
    all_goals (try simp only [*, if_true, if_false])
  | succ fuel =>
    simp only [block, statlist, statlistLoop_succ] at h ⊢
    exact h

theorem block_returns (fuel : Nat) (s : Cursor) : (block (fuel + 1) s).isSome = true := by
  simp only [block, statlist, statlistLoop_succ]
  repeat' split
  all_goals rfl

theorem funcdecl_mono (fuel : Nat) (s s' : Cursor) (r : Option StatementNode)
    (h : funcdecl fuel s = some (r, s')) : funcdecl (fuel + 1) s = some (r, s') := by
  simp only [funcdecl] at h ⊢
  repeat' split at h
  all_goals first | cases h | skip
  all_goals (try have hp := funcpar_mono _ _ _ _ (by assumption))
  all_goals (try have hb := block_mono _ _ _ _ (by assumption))
  all_goals (try simp only [*, if_true, if_false])

theorem funcdecl_returns (fuel : Nat) (s : Cursor) (h : s.length < fuel) :
    (funcdecl fuel s).isSome = true := by
  obtain ⟨fuel, rfl⟩ : ∃ k, fuel = k + 1 := ⟨fuel - 1, by omega⟩
  simp only [funcdecl]
  have hs4 : ∀ s3 : Cursor, s3 <:+ s → (funcpar (fuel + 1) s3).isSome = true := by
    intro s3 h3
    exact funcpar_returns _ _ (Nat.lt_of_le_of_lt h3.length_le h)
  repeat' split
  all_goals first | rfl | skip
  · rename_i hnone
    have h4 := hs4 _ (step_id (step_whitespace_eq (by assumption)
      (step_expectStr (by assumption) (step_whitespace (List.suffix_refl s)))))
    rw [hnone] at h4
    cases h4
  · rename_i hnone
    have hb := block_returns fuel (by assumption)
    rw [hnone] at hb
    cases hb

/-- A declaration that `funcdecl` returns has consumed at least the keyword:
the cursor has advanced. -/
theorem funcdecl_progress (fuel : Nat) (s s' : Cursor) (node : StatementNode)
    (h : funcdecl fuel s = some (some node, s')) : s'.length < s.length := by
  simp only [funcdecl] at h
  cases hf : expectStr "func" (whitespace s).2 with
  | mk b s2 =>
    rw [hf] at h
    cases b with
    | false => cases h
    | true =>
      have h2 : s2.length < s.length :=
        lt_of_expectStr_func hf (step_whitespace (List.suffix_refl s))
      have h3 : s' <:+ s2 := by
        simp only at h
        repeat' split at h
        all_goals first | cases h | skip
        repeat (first
          | exact List.suffix_refl _
          | refine step_whitespace ?_
          | refine step_id ?_
          | refine step_expectStr (by assumption) ?_
          | refine step_expect (by assumption) ?_
          | refine step_whitespace_eq (by assumption) ?_
          | refine step_type_eq (by assumption) ?_
          | refine step_rtype (by assumption) ?_
          | refine Advances.step (funcpar_advances fuel) (by assumption) ?_
          | refine Advances.step (block_advances fuel) (by assumption) ?_)
      exact Nat.lt_of_le_of_lt h3.length_le h2

theorem unitLoop_mono (fuel : Nat) :
    ∀ (list : Option StatementListNode) (s s' : Cursor) (r : Option StatementListNode),
      unitLoop fuel list s = some (r, s') → unitLoop (fuel + 1) list s = some (r, s') := by
  induction fuel with
  | zero => intro list s s' r h; simp [unitLoop] at h
  | succ fuel ih =>
    intro list s s' r h
    rw [unitLoop] at h ⊢
    repeat' split at h
    all_goals first | cases h | skip
    all_goals (try have hp := funcdecl_mono _ _ _ _ (by assumption))
    all_goals (try simp only [*])
    all_goals exact ih _ _ _ _ (by assumption)

theorem unitLoop_returns (fuel : Nat) :
    ∀ (list : Option StatementListNode) (s : Cursor), s.length < fuel →
      (unitLoop fuel list s).isSome = true := by
  induction fuel with
  | zero => intro list s h; omega
  | succ fuel ih =>
    intro list s h
    rw [unitLoop]
    have hd := funcdecl_returns (fuel + 1) s h
    repeat' split
    all_goals first | rfl | skip
    · rename_i hnone
      rw [hnone] at hd
      cases hd
    · apply ih
      have hp := funcdecl_progress _ _ _ _ (by assumption)
      omega

theorem unitLoop_mono_le {fuel fuel' : Nat} (hle : fuel ≤ fuel')
    {list : Option StatementListNode} {s s' : Cursor} {r : Option StatementListNode}
    (h : unitLoop fuel list s = some (r, s')) : unitLoop fuel' list s = some (r, s') := by
  induction hle with
  | refl => exact h
  | step _ ih => exact unitLoop_mono _ _ _ _ _ ih

/-- With a budget above the length of the input, `parse` with that budget
returns what `parse` returns with the budget it takes itself. -/
theorem parseFuel_eq_parse (input : String) (fuel : Nat) (h : input.data.length < fuel) :
    parseFuel fuel input.data = AnacondaParser.parse input := by
  have hr := unitLoop_returns (input.data.length + 1) none input.data (Nat.lt_succ_self _)
  cases hu : unitLoop (input.data.length + 1) none input.data with
  | none => rw [hu] at hr; cases hr
  | some x =>
    obtain ⟨r, s'⟩ := x
    have h2 := unitLoop_mono_le (show input.data.length + 1 ≤ fuel by omega) hu
    simp only [AnacondaParser.parse, parseFuel, AnacondaParser.unit, hu, h2]

/-- The budget that `parse` takes is enough: it returns a result. -/
theorem parse_returns (input : String) : (AnacondaParser.parse input).isSome = true := by
  have hr := unitLoop_returns (input.data.length + 1) none input.data (Nat.lt_succ_self _)
  cases hu : unitLoop (input.data.length + 1) none input.data with
  | none => rw [hu] at hr; cases hr
  | some x =>
    obtain ⟨r, s'⟩ := x
    simp only [AnacondaParser.parse, parseFuel, AnacondaParser.unit, hu]
    split <;> rfl


/-! ## The result does not depend on the budget -/

/-- With any two budgets above the length of the text, `parse` returns the
same result, the one it returns with the budget it takes itself, and it does
return one. -/
theorem parseFuel_budget_independent (input : String) (fuel1 fuel2 : Nat)
    (h1 : input.data.length < fuel1) (h2 : input.data.length < fuel2) :
    parseFuel fuel1 input.data = parseFuel fuel2 input.data ∧
    parseFuel fuel1 input.data = AnacondaParser.parse input ∧
    ∃ r, AnacondaParser.parse input = some r := by
  refine ⟨?_, parseFuel_eq_parse input fuel1 h1, ?_⟩
  · rw [parseFuel_eq_parse input fuel1 h1, parseFuel_eq_parse input fuel2 h2]
  · exact Option.isSome_iff_exists.mp (parse_returns input)

/-! ## The order of the declarations (C16) and the empty program (C19) -/

theorem statements_mk (list : Option StatementListNode) (node : StatementNode) :
    statements (some (StatementListNode.mk list node)) = statements list ++ [node] := by
  cases list <;> rfl

theorem funcdecl_mono_le {fuel fuel' : Nat} (hle : fuel ≤ fuel') {s s' : Cursor}
    {r : Option StatementNode} (h : funcdecl fuel s = some (r, s')) :
    funcdecl fuel' s = some (r, s') := by
  induction hle with
  | refl => exact h
  | step _ ih => exact funcdecl_mono _ _ _ _ ih

/-- What `funcdecl` returns with some budget, it returns with every budget
above the length of the remaining input. -/
theorem funcdecl_agree {fuel0 fuel : Nat} {s s' : Cursor} {r : Option StatementNode}
    (h : funcdecl fuel0 s = some (r, s')) (hf : s.length < fuel) :
    funcdecl fuel s = some (r, s') := by
  rcases Nat.le_total fuel0 fuel with hle | hle
  · exact funcdecl_mono_le hle h
  · have hr := funcdecl_returns fuel s hf
    cases hx : funcdecl fuel s with
    | none => rw [hx] at hr; cases hr
    | some x =>
      obtain ⟨r2, s2⟩ := x
      have h2 := funcdecl_mono_le hle hx
      rw [h] at h2
      cases h2
      rfl

theorem unitLoop_sequence (nodes : List StatementNode) :
    ∀ (fuel : Nat) (list : Option StatementListNode) (s : Cursor),
      DeclSequence s nodes [] → s.length < fuel →
      ∃ r, unitLoop fuel list s = some (r, []) ∧ statements r = statements list ++ nodes := by
  induction nodes with
  | nil =>
    intro fuel list s hseq hf
    have hs : s = [] := by
      simp only [DeclSequence] at hseq
      exact hseq.symm
    subst hs
    obtain ⟨k, rfl⟩ : ∃ k, fuel = k + 1 := ⟨fuel - 1, by omega⟩
    exact ⟨list, by simp [unitLoop, funcdecl_nil], by simp⟩
  | cons node rest ih =>
    intro fuel list s hseq hf
    obtain ⟨fuel0, s1, hd, hrest⟩ := hseq
    obtain ⟨k, rfl⟩ : ∃ k, fuel = k + 1 := ⟨fuel - 1, by omega⟩
    have hd2 := funcdecl_agree hd hf
    have hp := funcdecl_progress _ _ _ _ hd
    obtain ⟨r, hr, hst⟩ := ih k (some (StatementListNode.mk list node)) s1 hrest (by omega)
    refine ⟨r, ?_, ?_⟩
    · rw [unitLoop]
      simp only [hd2]
      exact hr
    · rw [hst, statements_mk, List.append_assoc]
      rfl

/-- C16. Declaration order is preserved. When the input is a sequence of
`n >= 1` function declarations each accepted by `funcdecl`, returning the nodes
`nodes` one after the other and ending at the end of the input, `unit` returns
a statement list whose statements are exactly `nodes`, in that order, and
`parse` returns that list. -/
theorem unit_preserves_declaration_order (input : String) (nodes : List StatementNode)
    (hn : nodes ≠ []) (hseq : DeclSequence input.data nodes []) :
    ∃ L, AnacondaParser.unit (input.data.length + 1) input.data = some (some L, []) ∧
      L.toList = nodes ∧ AnacondaParser.parse input = some (some L) := by
  obtain ⟨r, hr, hst⟩ :=
    unitLoop_sequence nodes (input.data.length + 1) none input.data hseq (Nat.lt_succ_self _)
  cases r with
  | none =>
    simp only [statements, List.nil_append] at hst
    exact absurd hst.symm hn
  | some L =>
    refine ⟨L, hr, by simpa [statements] using hst, ?_⟩
    simp only [AnacondaParser.parse, parseFuel, AnacondaParser.unit, hr, whitespace_nil, atEnd]
    rfl

/-- An instance of C16: two declarations, `f` then `g`. -/
theorem unit_preserves_declaration_order_witness :
    ∃ L, AnacondaParser.unit ("func f(u8 x){}func g(u8 y)->S{}".data.length + 1)
        "func f(u8 x){}func g(u8 y)->S{}".data = some (some L, []) ∧
      L.toList =
        [StatementNode.functionDeclaration "f" ⟨[("x", DataTypeBase.u8)]⟩ DataTypeBase.void
          (BlockNode.mk none),
         StatementNode.functionDeclaration "g" ⟨[("y", DataTypeBase.u8)]⟩
          (DataTypeBase.structForward "S") (BlockNode.mk none)] ∧
      AnacondaParser.parse "func f(u8 x){}func g(u8 y)->S{}" = some (some L) :=
  unit_preserves_declaration_order "func f(u8 x){}func g(u8 y)->S{}" _ (by simp)
    ⟨1, "func g(u8 y)->S{}".data, rfl, 1, [], rfl, rfl⟩

theorem unitLoop_keeps (fuel : Nat) :
    ∀ (list r : Option StatementListNode) (s s' : Cursor),
      unitLoop fuel list s = some (r, s') → ∃ more, statements r = statements list ++ more := by
  induction fuel with
  | zero => intro list r s s' h; simp [unitLoop] at h
  | succ fuel ih =>
    intro list r s s' h
    rw [unitLoop] at h
    repeat' split at h
    all_goals first | cases h | skip
    · exact ⟨[], by simp⟩
    · obtain ⟨more, hm⟩ := ih _ _ _ _ h
      rw [statements_mk, List.append_assoc] at hm
      exact ⟨_, hm⟩

theorem whitespace_blank (s : Cursor) (h : ∀ c ∈ s, c.isWhitespace = true) :
    (whitespace s).2 = [] := by
  simp only [whitespace]
  exact List.dropWhile_eq_nil_iff.mpr h

/-- C19. Every tree that `parse` returns holds at least one function
declaration, the one that `funcdecl` returns at the start of the input. When
the first call of `funcdecl` returns the absent result, so that `unit` matches
no declaration, `unit` returns the null pointer and `parse` returns the absent
result; this is so on the empty input and on an input of blanks only. -/
theorem parse_tree_has_declaration :
    (∀ (input : String) (L : StatementListNode),
      AnacondaParser.parse input = some (some L) →
        ∃ node s1, funcdecl (input.data.length + 1) input.data = some (some node, s1) ∧
          L.toList.head? = some node) ∧
    (∀ (fuel : Nat) (s s1 : Cursor), funcdecl (fuel + 1) s = some (none, s1) →
      AnacondaParser.unit (fuel + 1) s = some (none, s1) ∧ parseFuel (fuel + 1) s = some none) ∧
    (∀ input : String, (∀ c ∈ input.data, c.isWhitespace = true) →
      AnacondaParser.parse input = some none) := by
  have hzero : ∀ (fuel : Nat) (s s1 : Cursor), funcdecl (fuel + 1) s = some (none, s1) →
      AnacondaParser.unit (fuel + 1) s = some (none, s1) ∧
        parseFuel (fuel + 1) s = some none := by
    intro fuel s s1 h
    have hu : AnacondaParser.unit (fuel + 1) s = some (none, s1) := by
      simp only [AnacondaParser.unit, unitLoop, h]
    refine ⟨hu, ?_⟩
    simp only [parseFuel, hu]
    split <;> rfl
  refine ⟨?_, hzero, ?_⟩
  · intro input L h
    cases hu : unitLoop (input.data.length + 1) none input.data with
    | none =>
      simp only [AnacondaParser.parse, parseFuel, AnacondaParser.unit, hu] at h
      cases h
    | some x =>
      obtain ⟨r, s3⟩ := x
      have hr : r = some L := by
        simp only [AnacondaParser.parse, parseFuel, AnacondaParser.unit, hu] at h
        split at h
        · cases h
        · exact Option.some.inj h
      subst hr
      rw [unitLoop] at hu
      repeat' split at hu
      all_goals first | cases hu | skip
      obtain ⟨more, hm⟩ := unitLoop_keeps _ _ _ _ _ hu
      refine ⟨_, _, by assumption, ?_⟩
      have hm2 : L.toList = _ := hm
      rw [hm2, statements_mk]
      rfl
  · intro input hblank
    have hw := whitespace_blank input.data hblank
    have hd : funcdecl (input.data.length + 1) input.data = some (none, []) := by
      simp [funcdecl, hw, expectStr]
    exact (hzero _ _ _ hd).2

/-- Instances of C19: the empty input and an input of blanks are refused, and
the tree of `func f(u8 x){}` starts with the declaration of `f`. -/
theorem parse_tree_has_declaration_witness :
    AnacondaParser.parse "" = some none ∧
    AnacondaParser.parse " \n\t " = some none ∧
    ∃ node s1, funcdecl ("func f(u8 x){}".data.length + 1) "func f(u8 x){}".data =
        some (some node, s1) ∧
      (StatementListNode.mk none (StatementNode.functionDeclaration "f"
        ⟨[("x", DataTypeBase.u8)]⟩ DataTypeBase.void (BlockNode.mk none))).toList.head? =
        some node :=
  ⟨parse_tree_has_declaration.2.2 "" (by decide),
    parse_tree_has_declaration.2.2 " \n\t " (by decide),
    parse_tree_has_declaration.1 "func f(u8 x){}" _ rfl⟩


/-! ## Duplicate parameter names (C15) -/

theorem not_u8_prefix_identifier (n rest : Cursor) (hn : isIdentifier n = true) :
    "u8".data.isPrefixOf (n ++ ' ' :: rest) = false := by
  cases n with
  | nil => simp [isIdentifier] at hn
  | cons c t =>
    simp only [isIdentifier, Bool.and_eq_true] at hn
    cases t with
    | nil =>
      show ['u', '8'].isPrefixOf (c :: ' ' :: rest) = false
      simp [List.isPrefixOf]
    | cons d t' =>
      have hd : d ≠ '8' := by
        have h1 := hn.2
        simp only [List.all_cons, Bool.and_eq_true, Bool.or_eq_true, beq_iff_eq] at h1
        rintro rfl
        rcases h1.1 with h2 | h2
        · exact absurd h2 (by decide)
        · exact absurd h2 (by decide)
      show ['u', '8'].isPrefixOf (c :: d :: (t' ++ ' ' :: rest)) = false
      simp only [List.isPrefixOf, Bool.and_eq_false_imp, beq_iff_eq, Bool.and_true,
        beq_eq_false_iff_ne]
      intro _ h
      exact hd h.symm

theorem typeText_not_blank (t : DataTypeBase) (ht : isParameterType t = true) (rest : Cursor) :
    whitespace (typeText t ++ ' ' :: rest) = (false, typeText t ++ ' ' :: rest) := by
  cases t with
  | u8 => exact whitespace_cons_of_not (by decide)
  | structForward name => exact whitespace_identifier name.data _ ht
  | void => simp [isParameterType] at ht
  | struct name fields => simp [isParameterType] at ht

theorem type_typeText (t : DataTypeBase) (ht : isParameterType t = true) (rest : Cursor) :
    AnacondaParser.type (typeText t ++ ' ' :: rest) = (some t, ' ' :: rest) := by
  cases t with
  | u8 =>
    have hw : whitespace ('u' :: '8' :: ' ' :: rest) = (false, 'u' :: '8' :: ' ' :: rest) :=
      whitespace_cons_of_not (by decide)
    show AnacondaParser.type ('u' :: '8' :: ' ' :: rest) = _
    simp [AnacondaParser.type, hw, expectStr]
  | structForward name =>
    have hw := whitespace_identifier name.data (' ' :: rest) ht
    have hp := not_u8_prefix_identifier name.data rest ht
    have hid := id_append name.data (' ' :: rest) ht rfl
    have hne := mk_ne_empty_of_isIdentifier name.data ht
    have he : expectStr "u8" (name.data ++ ' ' :: rest) = (false, name.data ++ ' ' :: rest) := by
      unfold expectStr
      rw [hp]
      rfl
    show AnacondaParser.type (name.data ++ ' ' :: rest) = _
    simp only [AnacondaParser.type, hw, he, hid]
    simp [hne]
  | void => simp [isParameterType] at ht
  | struct name fields => simp [isParameterType] at ht

theorem funcparLoop_skip_blank (fuel : Nat) (m : ParameterMap) (s : Cursor) :
    funcparLoop fuel m (' ' :: s) = funcparLoop fuel m s := by
  cases fuel with
  | zero => rfl
  | succ fuel =>
    rw [funcparLoop, funcparLoop]
    have h : (whitespace (' ' :: s)).2 = (whitespace s).2 := by
      rw [whitespace_cons_of_blank (by decide)]
    simp only [h]

theorem funcparLoop_last (fuel : Nat) (m : ParameterMap) (d : DataTypeBase × String)
    (rest : Cursor) (ht : isParameterType d.1 = true) (hn : isIdentifier d.2.data = true) :
    funcparLoop (fuel + 1) m (typeText d.1 ++ ' ' :: d.2.data ++ ')' :: rest) =
      some (some ⟨m.assign d.2 d.1⟩, rest) := by
  have hw := typeText_not_blank d.1 ht (d.2.data ++ ')' :: rest)
  have hty := type_typeText d.1 ht (d.2.data ++ ')' :: rest)
  have hid := id_append d.2.data (')' :: rest) hn rfl
  have hwn := whitespace_identifier d.2.data (')' :: rest) hn
  have hne := mk_ne_empty_of_isIdentifier d.2.data hn
  have hw2 : whitespace (' ' :: (d.2.data ++ ')' :: rest)) = (true, d.2.data ++ ')' :: rest) := by
    rw [whitespace_cons_of_blank (by decide), hwn]
  have hw3 : whitespace (')' :: rest) = (false, ')' :: rest) :=
    whitespace_cons_of_not (by decide)
  rw [funcparLoop]
  simp only [List.append_assoc, List.cons_append, hw, hty, hw2, hid, hw3, expect]
  simp [hne]

theorem funcparLoop_next (fuel : Nat) (m : ParameterMap) (d : DataTypeBase × String)
    (rest : Cursor) (ht : isParameterType d.1 = true) (hn : isIdentifier d.2.data = true) :
    funcparLoop (fuel + 1) m (typeText d.1 ++ ' ' :: d.2.data ++ ',' :: rest) =
      funcparLoop fuel (m.assign d.2 d.1) rest := by
  have hw := typeText_not_blank d.1 ht (d.2.data ++ ',' :: rest)
  have hty := type_typeText d.1 ht (d.2.data ++ ',' :: rest)
  have hid := id_append d.2.data (',' :: rest) hn rfl
  have hwn := whitespace_identifier d.2.data (',' :: rest) hn
  have hne := mk_ne_empty_of_isIdentifier d.2.data hn
  have hw2 : whitespace (' ' :: (d.2.data ++ ',' :: rest)) = (true, d.2.data ++ ',' :: rest) := by
    rw [whitespace_cons_of_blank (by decide), hwn]
  have hw3 : whitespace (',' :: rest) = (false, ',' :: rest) :=
    whitespace_cons_of_not (by decide)
  rw [funcparLoop]
  simp only [List.append_assoc, List.cons_append, hw, hty, hw2, hid, hw3, expect]
  simp [hne]

/-- On the text `t1 n1, ..., tk nk)` the loop of `funcpar` assigns the
parameters to the map one after the other, in the order of the text. -/
theorem funcparLoop_parametersText (ds : List (DataTypeBase × String)) :
    ds ≠ [] → (∀ d ∈ ds, isParameterType d.1 = true ∧ isIdentifier d.2.data = true) →
    ∀ (fuel : Nat) (m : ParameterMap) (rest : Cursor), ds.length ≤ fuel →
      funcparLoop fuel m (parametersText ds ++ rest) =
        some (some ⟨ds.foldl (fun m d => m.assign d.2 d.1) m⟩, rest) := by
  induction ds with
  | nil => intro h; exact absurd rfl h
  | cons d ds ih =>
    intro _ hval fuel m rest hf
    have hd := hval d (List.mem_cons_self _ _)
    obtain ⟨k, rfl⟩ : ∃ k, fuel = k + 1 := ⟨fuel - 1, by simp at hf; omega⟩
    cases ds with
    | nil =>
      simp only [parametersText, List.foldl, List.append_assoc, List.cons_append,
        List.nil_append]
      have h := funcparLoop_last k m d rest hd.1 hd.2
      simp only [List.append_assoc, List.cons_append] at h
      exact h
    | cons e ds' =>
      have h := funcparLoop_next k m d (' ' :: (parametersText (e :: ds') ++ rest)) hd.1 hd.2
      simp only [List.append_assoc, List.cons_append] at h
      simp only [parametersText, List.foldl, List.append_assoc, List.cons_append]
      rw [h, funcparLoop_skip_blank]
      exact ih (by simp) (fun x hx => hval x (List.mem_cons_of_mem _ hx)) k _ rest
        (by simp at hf ⊢; omega)

theorem toNat_eq_imp_eq {a b : Char} (h : a.toNat = b.toNat) : a = b := by
  rw [← Char.ofNat_toNat a, ← Char.ofNat_toNat b, h]

theorem lexLess_irrefl (a : List Char) : lexLess a a = false := by
  induction a with
  | nil => rfl
  | cons c t ih => simp [lexLess, ih]

theorem lexLess_trans :
    ∀ (a b c : List Char), lexLess a b = true → lexLess b c = true → lexLess a c = true := by
  intro a
  induction a with
  | nil =>
    intro b c hab hbc
    cases c with
    | nil => cases b <;> simp [lexLess] at hbc
    | cons z c' => rfl
  | cons x a' ih =>
    intro b c hab hbc
    cases b with
    | nil => simp [lexLess] at hab
    | cons y b' =>
      cases c with
      | nil => simp [lexLess] at hbc
      | cons z c' =>
        simp only [lexLess] at hab hbc ⊢
        by_cases hxy : x.toNat < y.toNat
        · by_cases hyz : y.toNat < z.toNat
          · have hxz : x.toNat < z.toNat := by omega
            simp [hxz]
          · by_cases hzy : z.toNat < y.toNat
            · simp [hyz, hzy] at hbc
            · have hxz : x.toNat < z.toNat := by omega
              simp [hxz]
        · by_cases hyx : y.toNat < x.toNat
          · simp [hxy, hyx] at hab
          · simp only [hxy, hyx, if_false] at hab
            by_cases hyz : y.toNat < z.toNat
            · have hxz : x.toNat < z.toNat := by omega
              simp [hxz]
            · by_cases hzy : z.toNat < y.toNat
              · simp [hyz, hzy] at hbc
              · simp only [hyz, hzy, if_false] at hbc
                have h1 : ¬ x.toNat < z.toNat := by omega
                have h2 : ¬ z.toNat < x.toNat := by omega
                simp only [h1, h2, if_false]
                exact ih b' c' (by simpa using hab) (by simpa using hbc)

theorem lexLess_total :
    ∀ (a b : List Char), lexLess a b = false → a ≠ b → lexLess b a = true := by
  intro a
  induction a with
  | nil =>
    intro b hab hne
    cases b with
    | nil => exact absurd rfl hne
    | cons y b' => simp [lexLess] at hab
  | cons x a' ih =>
    intro b hab hne
    cases b with
    | nil => rfl
    | cons y b' =>
      simp only [lexLess] at hab ⊢
      by_cases hxy : x.toNat < y.toNat
      · simp [hxy] at hab
      · by_cases hyx : y.toNat < x.toNat
        · simp [hyx]
        · simp only [hxy, hyx, if_false] at hab ⊢
          have hxe : x = y := toNat_eq_imp_eq (by omega)
          subst hxe
          exact ih b' (by simpa using hab) (fun h => hne (by rw [h]))

theorem data_ne_of_ne {a b : String} (h : a ≠ b) : a.data ≠ b.data := by
  intro hd
  apply h
  cases a
  cases b
  simp only at hd
  rw [hd]

theorem ParameterMap.sorted_cons (k : String) (v : DataTypeBase) (m : ParameterMap) :
    ParameterMap.Sorted ((k, v) :: m) ↔
      (∀ x ∈ m.map (fun e => e.1), lexLess k.data x.data = true) ∧ ParameterMap.Sorted m := by
  simp only [ParameterMap.Sorted, List.map_cons, List.pairwise_cons]

theorem ParameterMap.keys_assign (m : ParameterMap) (k : String) (v : DataTypeBase)
    (x : String) :
    x ∈ (m.assign k v).map (fun e => e.1) ↔ x = k ∨ x ∈ m.map (fun e => e.1) := by
  induction m with
  | nil => simp [ParameterMap.assign]
  | cons e rest ih =>
    obtain ⟨k', v'⟩ := e
    simp only [ParameterMap.assign]
    split
    · rename_i hk
      subst hk
      simp
    · split
      · simp
      · simp only [List.map_cons, List.mem_cons, ih]
        tauto

theorem ParameterMap.assign_sorted (m : ParameterMap) (k : String) (v : DataTypeBase)
    (hm : m.Sorted) : (m.assign k v).Sorted := by
  induction m with
  | nil => simp [ParameterMap.assign, ParameterMap.Sorted]
  | cons e rest ih =>
    obtain ⟨k', v'⟩ := e
    rw [ParameterMap.sorted_cons] at hm
    simp only [ParameterMap.assign]
    split
    · rename_i hk
      subst hk
      rw [ParameterMap.sorted_cons]
      exact hm
    · rename_i hk
      split
      · rename_i hlt
        rw [ParameterMap.sorted_cons, ParameterMap.sorted_cons]
        refine ⟨?_, hm⟩
        intro x hx
        simp only [List.map_cons, List.mem_cons] at hx
        rcases hx with rfl | hx
        · exact hlt
        · exact lexLess_trans _ _ _ hlt (hm.1 x hx)
      · rename_i hlt
        rw [ParameterMap.sorted_cons]
        refine ⟨?_, ih hm.2⟩
        intro x hx
        rcases (ParameterMap.keys_assign rest k v x).mp hx with rfl | hx
        · exact lexLess_total _ _ (by simpa using hlt) (data_ne_of_ne hk)
        · exact hm.1 x hx

theorem ParameterMap.key_ne_of_sorted {k : String} {v : DataTypeBase} {m : ParameterMap}
    (hm : ParameterMap.Sorted ((k, v) :: m)) {n : String} {t : DataTypeBase}
    (h : (n, t) ∈ m) : n ≠ k := by
  rw [ParameterMap.sorted_cons] at hm
  rintro rfl
  have h1 := hm.1 n (List.mem_map.mpr ⟨(n, t), h, rfl⟩)
  rw [lexLess_irrefl] at h1
  cases h1

theorem ParameterMap.mem_assign (m : ParameterMap) (k : String) (v : DataTypeBase)
    (hm : m.Sorted) (n : String) (t : DataTypeBase) :
    (n, t) ∈ m.assign k v ↔ (n = k ∧ t = v) ∨ (n ≠ k ∧ (n, t) ∈ m) := by
  induction m with
  | nil => simp [ParameterMap.assign]
  | cons e rest ih =>
    obtain ⟨k', v'⟩ := e
    have hrest := (ParameterMap.sorted_cons k' v' rest).mp hm
    simp only [ParameterMap.assign]
    split
    · rename_i hk
      subst hk
      simp only [List.mem_cons, Prod.mk.injEq]
      constructor
      · rintro (h | h)
        · exact Or.inl h
        · exact Or.inr ⟨ParameterMap.key_ne_of_sorted hm h, Or.inr h⟩
      · rintro (h | ⟨hne, h | h⟩)
        · exact Or.inl h
        · exact absurd h.1 hne
        · exact Or.inr h
    · rename_i hk
      split
      · rename_i hlt
        simp only [List.mem_cons, Prod.mk.injEq]
        constructor
        · rintro (h | h | h)
          · exact Or.inl h
          · refine Or.inr ⟨?_, Or.inl h⟩
            rw [h.1]
            exact fun h2 => hk h2.symm
          · refine Or.inr ⟨?_, Or.inr h⟩
            rintro rfl
            have h1 := lexLess_trans _ _ _ hlt
              (hrest.1 n (List.mem_map.mpr ⟨(n, t), h, rfl⟩))
            rw [lexLess_irrefl] at h1
            cases h1
        · rintro (h | ⟨-, h | h⟩)
          · exact Or.inl h
          · exact Or.inr (Or.inl h)
          · exact Or.inr (Or.inr h)
      · simp only [List.mem_cons, Prod.mk.injEq, ih hrest.2]
        constructor
        · rintro (h | h | h)
          · refine Or.inr ⟨?_, Or.inl h⟩
            rw [h.1]
            exact fun h2 => hk h2.symm
          · exact Or.inl h
          · exact Or.inr ⟨h.1, Or.inr h.2⟩
        · rintro (h | ⟨hne, h | h⟩)
          · exact Or.inr (Or.inl h)
          · exact Or.inl h
          · exact Or.inr (Or.inr ⟨hne, h⟩)

theorem ParameterMap.sorted_nodup (m : ParameterMap) (hm : m.Sorted) :
    (m.map (fun e => e.1)).Nodup := by
  refine List.Pairwise.imp ?_ hm
  intro a b h hab
  subst hab
  rw [lexLess_irrefl] at h
  cases h

theorem lastType_cons (d : DataTypeBase × String) (ds : List (DataTypeBase × String))
    (n : String) :
    lastType (d :: ds) n =
      match lastType ds n with
      | some t => some t
      | none => if d.2 = n then some d.1 else none := by
  simp only [lastType, List.reverse_cons, List.find?_append]
  cases h : List.find? (fun d => decide (d.2 = n)) ds.reverse with
  | some x => simp
  | none =>
    by_cases hd : d.2 = n
    · simp [List.find?, hd]
    · simp [List.find?, hd]

theorem foldl_assign_sorted (ds : List (DataTypeBase × String)) :
    ∀ m : ParameterMap, m.Sorted →
      (ds.foldl (fun m d => ParameterMap.assign m d.2 d.1) m).Sorted := by
  induction ds with
  | nil => intro m hm; exact hm
  | cons d ds ih => intro m hm; exact ih _ (ParameterMap.assign_sorted m d.2 d.1 hm)

theorem mem_foldl_assign (ds : List (DataTypeBase × String)) :
    ∀ m : ParameterMap, m.Sorted → ∀ (n : String) (t : DataTypeBase),
      ((n, t) ∈ ds.foldl (fun m d => ParameterMap.assign m d.2 d.1) m ↔
        lastType ds n = some t ∨ (lastType ds n = none ∧ (n, t) ∈ m)) := by
  induction ds with
  | nil => intro m hm n t; simp [lastType]
  | cons d ds ih =>
    intro m hm n t
    simp only [List.foldl]
    rw [ih _ (ParameterMap.assign_sorted m d.2 d.1 hm), ParameterMap.mem_assign m d.2 d.1 hm,
      lastType_cons]
    cases h : lastType ds n with
    | some x => simp
    | none =>
      by_cases hd : d.2 = n
      · subst hd
        simp only [if_true, Option.some.injEq, true_and, ne_eq, not_true_eq_false, false_and,
          or_false, reduceCtorEq, false_or]
        exact eq_comm
      · have hd' : n ≠ d.2 := fun h2 => hd h2.symm
        simp [hd, hd']

theorem lastType_isSome_iff (ds : List (DataTypeBase × String)) (n : String) :
    (∃ t, lastType ds n = some t) ↔ n ∈ ds.map (fun d => d.2) := by
  induction ds with
  | nil => simp [lastType]
  | cons d ds ih =>
    rw [lastType_cons]
    cases h : lastType ds n with
    | some x =>
      have h1 : n ∈ ds.map (fun d => d.2) := ih.mp ⟨x, h⟩
      simp [h1]
    | none =>
      have h1 : n ∉ ds.map (fun d => d.2) := by
        intro hc
        obtain ⟨t, ht⟩ := ih.mpr hc
        rw [h] at ht
        cases ht
      by_cases hd : d.2 = n
      · simp [hd]
      · have hd' : ¬ n = d.2 := fun h2 => hd h2.symm
        simp only [hd, if_false, reduceCtorEq, exists_false, List.map_cons, List.mem_cons, hd',
          false_or, false_iff]
        exact h1

/-- C15. Duplicate parameter names silently overwrite. On the parameter list
`(t1 n1, ..., tk nk)`, `k >= 1`, with every type `u8` or an identifier and
every name an identifier, `funcpar` succeeds and leaves the cursor after the
closing parenthesis, also when names are repeated; the mapping it returns has
no name twice, its names are exactly the names `n1..nk`, and each name maps to
the type of its last declaration in the list. -/
theorem funcpar_last_declaration_wins (ds : List (DataTypeBase × String)) (hne : ds ≠ [])
    (hval : ∀ d ∈ ds, isParameterType d.1 = true ∧ isIdentifier d.2.data = true)
    (fuel : Nat) (hf : ds.length ≤ fuel) (rest : Cursor) :
    ∃ M : ParameterMap,
      funcpar fuel ('(' :: parametersText ds ++ rest) = some (some ⟨M⟩, rest) ∧
      (M.map (fun e => e.1)).Nodup ∧
      (∀ n, n ∈ M.map (fun e => e.1) ↔ n ∈ ds.map (fun d => d.2)) ∧
      (∀ n t, (n, t) ∈ M ↔ lastType ds n = some t) := by
  have hnil : ParameterMap.Sorted [] := by simp [ParameterMap.Sorted]
  have hmem : ∀ n t, (n, t) ∈ ds.foldl (fun m d => ParameterMap.assign m d.2 d.1) [] ↔
      lastType ds n = some t := by
    intro n t
    rw [mem_foldl_assign ds [] hnil n t]
    simp
  refine ⟨ds.foldl (fun m d => ParameterMap.assign m d.2 d.1) [], ?_, ?_, ?_, hmem⟩
  · have hw : whitespace ('(' :: (parametersText ds ++ rest)) =
        (false, '(' :: (parametersText ds ++ rest)) := whitespace_cons_of_not (by decide)
    simp only [funcpar, List.cons_append, hw, expect, if_true]
    exact funcparLoop_parametersText ds hne hval fuel [] rest hf
  · exact ParameterMap.sorted_nodup _ (foldl_assign_sorted ds [] hnil)
  · intro n
    rw [← lastType_isSome_iff ds n]
    constructor
    · intro h
      obtain ⟨e, he, rfl⟩ := List.mem_map.mp h
      exact ⟨e.2, (hmem e.1 e.2).mp he⟩
    · rintro ⟨t, ht⟩
      exact List.mem_map.mpr ⟨(n, t), (hmem n t).mpr ht, rfl⟩

/-- The instance of C15 in the claim: `(u8 x, S x)` yields the mapping of `x`
to the forward reference to `S`, and nothing else. -/
theorem funcpar_last_declaration_wins_witness :
    funcpar 2 "(u8 x, S x)".data =
      some (some ⟨[("x", DataTypeBase.structForward "S")]⟩, []) ∧
    ∃ M : ParameterMap,
      funcpar 2 ('(' :: parametersText
        [(DataTypeBase.u8, "x"), (DataTypeBase.structForward "S", "x")] ++ []) =
        some (some ⟨M⟩, []) ∧
      (M.map (fun e => e.1)).Nodup ∧
      (∀ n, n ∈ M.map (fun e => e.1) ↔
        n ∈ [(DataTypeBase.u8, "x"), (DataTypeBase.structForward "S", "x")].map
          (fun d => d.2)) ∧
      (∀ n t, (n, t) ∈ M ↔
        lastType [(DataTypeBase.u8, "x"), (DataTypeBase.structForward "S", "x")] n = some t) :=
  ⟨rfl, funcpar_last_declaration_wins
    [(DataTypeBase.u8, "x"), (DataTypeBase.structForward "S", "x")] (by simp)
    (by decide) 2 (by decide) []⟩


/-! ## Termination (C20) -/

theorem id_data_append (s : Cursor) :
    (AnacondaParser.id s).1.data ++ (AnacondaParser.id s).2 = s := by
  cases s with
  | nil => rfl
  | cons c t =>
    by_cases hc : c.isAlpha = true
    · rw [id_of_letter c t hc]
      simp
    · have hc' : c.isAlpha = false := by simpa using hc
      rw [id_of_not_letter (c :: t) (by simpa using hc')]
      rfl

theorem id_progress (s : Cursor) (h : (AnacondaParser.id s).1 ≠ "") :
    (AnacondaParser.id s).2.length < s.length := by
  have h1 := id_data_append s
  have h2 : (AnacondaParser.id s).1.data ≠ [] := by
    intro hd
    apply h
    cases hx : (AnacondaParser.id s).1 with
    | mk data =>
      rw [hx] at hd
      simp only at hd
      rw [hd]
  have h3 := congrArg List.length h1
  rw [List.length_append] at h3
  have h4 : 0 < (AnacondaParser.id s).1.data.length := List.length_pos.mpr h2
  omega

theorem variable_progress {s s' : Cursor} {e : ExpressionNode}
    (h : variable_ s = (some e, s')) : s'.length < s.length := by
  simp only [variable_] at h
  split at h
  · cases h
  · cases h
    have h1 := id_progress (whitespace s).2 (by assumption)
    have h2 := (step_whitespace (List.suffix_refl s)).length_le
    omega

theorem funccall_progress {fuel : Nat} {s s' : Cursor} {e : ExpressionNode}
    (h : funccall fuel s = some (some e, s')) : s'.length < s.length := by
  cases fuel with
  | zero => simp [funccall] at h
  | succ fuel =>
    simp only [funccall] at h
    split at h
    · cases h
    · have h1 := id_progress (whitespace s).2 (by assumption)
      have h2 := (step_whitespace (List.suffix_refl s)).length_le
      have h3 : s' <:+ (AnacondaParser.id (whitespace s).2).2 := by
        repeat' split at h
        all_goals first | cases h | skip
        repeat (first
          | exact List.suffix_refl _
          | refine step_whitespace ?_
          | refine step_expect (by assumption) ?_
          | refine Advances.step (expr_family_advances fuel).2.2.2.2.2.2.2.2.2.1
              (by assumption) ?_)
      have h4 := h3.length_le
      omega

theorem atom_progress {fuel : Nat} {s s' : Cursor} {e : ExpressionNode}
    (h : atom fuel s = some (some e, s')) : s'.length < s.length := by
  cases fuel with
  | zero => simp [atom] at h
  | succ fuel =>
    simp only [atom, save, restore] at h
    repeat' split at h
    all_goals first | cases h | skip
    · have hx := paren_absent (by assumption)
      cases hx
    · exact funccall_progress (by assumption)
    · exact variable_progress (by assumption)

/-- A node that `unary` returns has cost at least one character: the cursor
has advanced. -/
theorem unary_progress {fuel : Nat} {s s' : Cursor} {e : ExpressionNode}
    (h : unary fuel s = some (some e, s')) : s'.length < s.length := by
  cases fuel with
  | zero => simp [unary] at h
  | succ fuel =>
    simp only [unary] at h
    have hw := step_whitespace (List.suffix_refl s)
    have hu := (expr_family_advances fuel).2.2.2.2.2.1
    have ha := (expr_family_advances fuel).2.2.2.2.2.2.1
    repeat' split at h
    all_goals first | cases h | skip
    · have h1 := lt_of_expect_true (by assumption) hw
      have h2 := (hu _ _ _ (by assumption)).length_le
      omega
    · have h1 := lt_of_expect_true (by assumption) hw
      have h2 := (hu _ _ _ (by assumption)).length_le
      have h3 := (ha _ _ _ h).length_le
      omega
    · have h1 := (step_expect (by assumption) hw).length_le
      have h2 := atom_progress h
      omega

theorem paren_step (fuel : Nat) (s : Cursor)
    (hexpr : ∀ s2 : Cursor, s2.length < s.length → (expr fuel s2).isSome = true) :
    (paren (fuel + 1) s).isSome = true := by
  simp only [paren]
  repeat' split
  all_goals first | rfl | skip
  have h1 := hexpr _ (lt_of_expect_true (by assumption) (step_whitespace (List.suffix_refl s)))
  simp_all

theorem funcargs_step (fuel : Nat) (s : Cursor)
    (hloop : ∀ (s2 : Cursor) (arguments : List ExpressionNode), s2.length < s.length →
      (funcargsLoop fuel arguments s2).isSome = true) :
    (funcargs (fuel + 1) s).isSome = true := by
  simp only [funcargs]
  repeat' split
  all_goals first | rfl | skip
  exact hloop _ _ (lt_of_expect_true (by assumption) (step_whitespace (List.suffix_refl s)))

theorem funccall_step (fuel : Nat) (s : Cursor)
    (hargs : ∀ s2 : Cursor, s2.length < s.length → (funcargs fuel s2).isSome = true) :
    (funccall (fuel + 1) s).isSome = true := by
  simp only [funccall]
  repeat' split
  all_goals first | rfl | skip
  have h1 := hargs _ (lt_of_expect_true (by assumption)
    (step_whitespace (step_id (step_whitespace (List.suffix_refl s)))))
  simp_all

theorem atom_step (fuel : Nat) (s : Cursor) (hparen : (paren fuel s).isSome = true)
    (hcall : (funccall fuel s).isSome = true) : (atom (fuel + 1) s).isSome = true := by
  simp only [atom, save, restore]
  repeat' split
  all_goals first | rfl | skip
  all_goals simp_all

theorem unary_step (fuel : Nat) (s : Cursor)
    (hatom : ∀ s1 : Cursor, s1.length ≤ s.length → (atom fuel s1).isSome = true)
    (hunary : ∀ s2 : Cursor, s2.length < s.length → (unary fuel s2).isSome = true) :
    (unary (fuel + 1) s).isSome = true := by
  simp only [unary]
  have hw := step_whitespace (List.suffix_refl s)
  have hu := (expr_family_advances fuel).2.2.2.2.2.1
  repeat' split
  all_goals first | rfl | skip
  · have h1 := hunary _ (lt_of_expect_true (by assumption) hw)
    simp_all
  · have h1 := lt_of_expect_true (by assumption) hw
    have h2 := (hu _ _ _ (by assumption)).length_le
    exact hatom _ (by omega)
  · exact hatom _ (step_expect (by assumption) hw).length_le

theorem productLoop_step (fuel : Nat) (lhs : ExpressionNode) (s : Cursor)
    (hunary : ∀ s1 : Cursor, s1.length ≤ s.length → (unary fuel s1).isSome = true)
    (hloop : ∀ (s2 : Cursor) (lhs2 : ExpressionNode), s2.length < s.length →
      (productLoop fuel lhs2 s2).isSome = true) :
    (productLoop (fuel + 1) lhs s).isSome = true := by
  simp only [productLoop]
  have hw := (step_whitespace (List.suffix_refl s)).length_le
  repeat' split
  all_goals first | rfl | skip
  all_goals first
    | (have h1 := unary_progress (by assumption)
       exact hloop _ _ (by omega))
    | (have h1 := hunary _ hw
       simp_all)

theorem product_step (fuel : Nat) (s : Cursor) (hunary : (unary fuel s).isSome = true)
    (hloop : ∀ (s1 : Cursor) (lhs : ExpressionNode), s1.length ≤ s.length →
      (productLoop fuel lhs s1).isSome = true) :
    (product (fuel + 1) s).isSome = true := by
  simp only [product]
  have hu := (expr_family_advances fuel).2.2.2.2.2.1
  repeat' split
  all_goals first | rfl | skip
  · simp_all
  · exact hloop _ _ (hu _ _ _ (by assumption)).length_le

theorem sumLoop_step (fuel : Nat) (lhs : ExpressionNode) (s : Cursor)
    (hproduct : ∀ s1 : Cursor, s1.length ≤ s.length → (product fuel s1).isSome = true) :
    (sumLoop (fuel + 1) lhs s).isSome = true := by
  simp only [sumLoop]
  have hw := (step_whitespace (List.suffix_refl s)).length_le
  repeat' split
  all_goals first | rfl | skip
  all_goals first
    | (have hx := (product_absent _ _ _ _).1 (by assumption)
       cases hx)
    | (have h1 := hproduct _ hw
       simp_all)

theorem sum_step (fuel : Nat) (s : Cursor) (hproduct : (product fuel s).isSome = true) :
    (sum (fuel + 1) s).isSome = true := by
  simp only [sum]
  repeat' split
  all_goals first | rfl | skip
  · simp_all
  · have hx := (product_absent _ _ _ _).1 (by assumption)
    cases hx

theorem funcargsLoop_step (fuel : Nat) (arguments : List ExpressionNode) (s : Cursor)
    (hexpr : ∀ s1 : Cursor, s1.length ≤ s.length → (expr fuel s1).isSome = true) :
    (funcargsLoop (fuel + 1) arguments s).isSome = true := by
  simp only [funcargsLoop]
  have hw := (step_whitespace (List.suffix_refl s)).length_le
  repeat' split
  all_goals first | rfl | skip
  · have h1 := hexpr _ hw
    simp_all
  · have hx := expr_absent (by assumption)
    cases hx

theorem expr_step (fuel : Nat) (s : Cursor) (hsum : (sum fuel s).isSome = true) :
    (expr (fuel + 1) s).isSome = true := by
  simp only [expr]
  exact hsum

/-- The productions of the expression grammar return when the budget is nine
for each character of the remaining input plus a margin that grows along the
calls that do not consume. -/
theorem expr_family_returns_level (n : Nat) :
    ∀ s : Cursor, s.length ≤ n → ∀ fuel : Nat,
      (9 * n + 1 ≤ fuel → (paren fuel s).isSome = true ∧ (funccall fuel s).isSome = true ∧
        (funcargs fuel s).isSome = true) ∧
      (9 * n + 2 ≤ fuel → (atom fuel s).isSome = true) ∧
      (9 * n + 3 ≤ fuel → (unary fuel s).isSome = true) ∧
      (9 * n + 4 ≤ fuel → ∀ lhs, (productLoop fuel lhs s).isSome = true) ∧
      (9 * n + 5 ≤ fuel → (product fuel s).isSome = true) ∧
      (9 * n + 6 ≤ fuel → ∀ lhs, (sumLoop fuel lhs s).isSome = true) ∧
      (9 * n + 7 ≤ fuel → (sum fuel s).isSome = true) ∧
      (9 * n + 8 ≤ fuel → (expr fuel s).isSome = true) ∧
      (9 * n + 9 ≤ fuel → ∀ arguments, (funcargsLoop fuel arguments s).isSome = true) := by
  induction n using Nat.strong_induction_on with
  | _ n ih =>
    have hparen : ∀ s : Cursor, s.length ≤ n → ∀ k : Nat, 9 * n + 1 ≤ k + 1 →
        (paren (k + 1) s).isSome = true := by
      intro s hs k hk
      apply paren_step
      intro s2 h2
      exact (ih (n - 1) (by omega) s2 (by omega) k).2.2.2.2.2.2.2.1 (by omega)
    have hfuncargs : ∀ s : Cursor, s.length ≤ n → ∀ k : Nat, 9 * n + 1 ≤ k + 1 →
        (funcargs (k + 1) s).isSome = true := by
      intro s hs k hk
      apply funcargs_step
      intro s2 arguments h2
      exact (ih (n - 1) (by omega) s2 (by omega) k).2.2.2.2.2.2.2.2 (by omega) arguments
    have hfunccall : ∀ s : Cursor, s.length ≤ n → ∀ k : Nat, 9 * n + 1 ≤ k + 1 →
        (funccall (k + 1) s).isSome = true := by
      intro s hs k hk
      apply funccall_step
      intro s2 h2
      exact ((ih (n - 1) (by omega) s2 (by omega) k).1 (by omega)).2.2
    have hatom : ∀ s : Cursor, s.length ≤ n → ∀ k : Nat, 9 * n + 2 ≤ k + 1 →
        (atom (k + 1) s).isSome = true := by
      intro s hs k hk
      obtain ⟨j, rfl⟩ : ∃ j, k = j + 1 := ⟨k - 1, by omega⟩
      exact atom_step _ s (hparen s hs j (by omega)) (hfunccall s hs j (by omega))
    have hunary : ∀ s : Cursor, s.length ≤ n → ∀ k : Nat, 9 * n + 3 ≤ k + 1 →
        (unary (k + 1) s).isSome = true := by
      intro s hs k hk
      obtain ⟨j, rfl⟩ : ∃ j, k = j + 1 := ⟨k - 1, by omega⟩
      apply unary_step
      · intro s1 h1
        exact hatom s1 (by omega) j (by omega)
      · intro s2 h2
        exact (ih (n - 1) (by omega) s2 (by omega) (j + 1)).2.2.1 (by omega)
    have hproductLoop : ∀ s : Cursor, s.length ≤ n → ∀ k : Nat, 9 * n + 4 ≤ k + 1 →
        ∀ lhs, (productLoop (k + 1) lhs s).isSome = true := by
      intro s hs k hk lhs
      obtain ⟨j, rfl⟩ : ∃ j, k = j + 1 := ⟨k - 1, by omega⟩
      apply productLoop_step
      · intro s1 h1
        exact hunary s1 (by omega) j (by omega)
      · intro s2 lhs2 h2
        exact (ih (n - 1) (by omega) s2 (by omega) (j + 1)).2.2.2.1 (by omega) lhs2
    have hproduct : ∀ s : Cursor, s.length ≤ n → ∀ k : Nat, 9 * n + 5 ≤ k + 1 →
        (product (k + 1) s).isSome = true := by
      intro s hs k hk
      obtain ⟨j, rfl⟩ : ∃ j, k = j + 1 := ⟨k - 1, by omega⟩
      apply product_step
      · exact hunary s hs j (by omega)
      · intro s1 lhs h1
        exact hproductLoop s1 (by omega) j (by omega) lhs
    have hsumLoop : ∀ s : Cursor, s.length ≤ n → ∀ k : Nat, 9 * n + 6 ≤ k + 1 →
        ∀ lhs, (sumLoop (k + 1) lhs s).isSome = true := by
      intro s hs k hk lhs
      obtain ⟨j, rfl⟩ : ∃ j, k = j + 1 := ⟨k - 1, by omega⟩
      apply sumLoop_step
      intro s1 h1
      exact hproduct s1 (by omega) j (by omega)
    have hsum : ∀ s : Cursor, s.length ≤ n → ∀ k : Nat, 9 * n + 7 ≤ k + 1 →
        (sum (k + 1) s).isSome = true := by
      intro s hs k hk
      obtain ⟨j, rfl⟩ : ∃ j, k = j + 1 := ⟨k - 1, by omega⟩
      exact sum_step _ s (hproduct s hs j (by omega))
    have hexpr : ∀ s : Cursor, s.length ≤ n → ∀ k : Nat, 9 * n + 8 ≤ k + 1 →
        (expr (k + 1) s).isSome = true := by
      intro s hs k hk
      obtain ⟨j, rfl⟩ : ∃ j, k = j + 1 := ⟨k - 1, by omega⟩
      exact expr_step _ s (hsum s hs j (by omega))
    have hfuncargsLoop : ∀ s : Cursor, s.length ≤ n → ∀ k : Nat, 9 * n + 9 ≤ k + 1 →
        ∀ arguments, (funcargsLoop (k + 1) arguments s).isSome = true := by
      intro s hs k hk arguments
      obtain ⟨j, rfl⟩ : ∃ j, k = j + 1 := ⟨k - 1, by omega⟩
      apply funcargsLoop_step
      intro s1 h1
      exact hexpr s1 (by omega) j (by omega)
    intro s hs fuel
    refine ⟨?_, ?_, ?_, ?_, ?_, ?_, ?_, ?_, ?_⟩
    · intro hf
      obtain ⟨k, rfl⟩ : ∃ k, fuel = k + 1 := ⟨fuel - 1, by omega⟩
      exact ⟨hparen s hs k hf, hfunccall s hs k hf, hfuncargs s hs k hf⟩
    · intro hf
      obtain ⟨k, rfl⟩ : ∃ k, fuel = k + 1 := ⟨fuel - 1, by omega⟩
      exact hatom s hs k hf
    · intro hf
      obtain ⟨k, rfl⟩ : ∃ k, fuel = k + 1 := ⟨fuel - 1, by omega⟩
      exact hunary s hs k hf
    · intro hf
      obtain ⟨k, rfl⟩ : ∃ k, fuel = k + 1 := ⟨fuel - 1, by omega⟩
      exact hproductLoop s hs k hf
    · intro hf
      obtain ⟨k, rfl⟩ : ∃ k, fuel = k + 1 := ⟨fuel - 1, by omega⟩
      exact hproduct s hs k hf
    · intro hf
      obtain ⟨k, rfl⟩ : ∃ k, fuel = k + 1 := ⟨fuel - 1, by omega⟩
      exact hsumLoop s hs k hf
    · intro hf
      obtain ⟨k, rfl⟩ : ∃ k, fuel = k + 1 := ⟨fuel - 1, by omega⟩
      exact hsum s hs k hf
    · intro hf
      obtain ⟨k, rfl⟩ : ∃ k, fuel = k + 1 := ⟨fuel - 1, by omega⟩
      exact hexpr s hs k hf
    · intro hf
      obtain ⟨k, rfl⟩ : ∃ k, fuel = k + 1 := ⟨fuel - 1, by omega⟩
      exact hfuncargsLoop s hs k hf

/-- One turn of the loop of `funcpar`: either the loop ends in this turn, with
a result that does not depend on the budget, or it goes on from a cursor that
has advanced. -/
theorem funcparLoop_turn (parameters : ParameterMap) (s : Cursor) :
    (∃ r, ∀ fuel, funcparLoop (fuel + 1) parameters s = some r) ∨
    (∃ parameters1 s7, s7.length < s.length ∧
      ∀ fuel, funcparLoop (fuel + 1) parameters s = funcparLoop fuel parameters1 s7) := by
  have hw := step_whitespace (List.suffix_refl s)
  cases h1 : AnacondaParser.type (whitespace s).2 with
  | mk r1 s2 =>
    have h2 := step_type_eq h1 hw
    cases r1 with
    | none => exact Or.inl ⟨(none, s2), fun fuel => by simp only [funcparLoop, h1]⟩
    | some partype =>
      cases h3 : whitespace s2 with
      | mk b s3 =>
        have h4 := step_whitespace_eq h3 h2
        cases b with
        | false => exact Or.inl ⟨(none, s3), fun fuel => by simp only [funcparLoop, h1, h3]⟩
        | true =>
          by_cases h5 : (AnacondaParser.id s3).1 = ""
          · exact Or.inl ⟨(none, (AnacondaParser.id s3).2), fun fuel => by
              simp only [funcparLoop, h1, h3, h5, if_true]⟩
          · have h6 := step_whitespace (step_id h4)
            cases h7 : expect ')' (whitespace (AnacondaParser.id s3).2).2 with
            | mk b2 s6 =>
              have h8 := step_expect h7 h6
              cases b2 with
              | true =>
                exact Or.inl ⟨(some ⟨parameters.assign (AnacondaParser.id s3).1 partype⟩, s6),
                  fun fuel => by simp only [funcparLoop, h1, h3, h5, if_false, h7]⟩
              | false =>
                cases h9 : expect ',' s6 with
                | mk b3 s7 =>
                  cases b3 with
                  | false =>
                    exact Or.inl ⟨(none, s7), fun fuel => by
                      simp only [funcparLoop, h1, h3, h5, if_false, h7, h9]⟩
                  | true =>
                    exact Or.inr ⟨parameters.assign (AnacondaParser.id s3).1 partype, s7,
                      lt_of_expect_true h9 h8, fun fuel => by
                      simp only [funcparLoop, h1, h3, h5, if_false, h7, h9]⟩

/-- C20. The parser terminates on every finite input. From every cursor `s`:
`parse` on the input `s` returns a result with the budget it takes; the
productions of the declarations return with every budget above the length of
`s`, and the productions of the expressions with every budget from nine times
the length of `s` plus nine; and what makes it so: a declaration that
`funcdecl` returns and a node that `unary`, `atom`, `funccall`, `product` or
`expr` returns have advanced the cursor, `statement` returns no node, and a
turn of the loop of `funcpar` ends the loop or goes on from an advanced
cursor. -/
theorem parser_terminates (s : Cursor) :
    (∃ r, AnacondaParser.parse (String.mk s) = some r) ∧
    (∀ fuel, s.length < fuel →
      (AnacondaParser.unit fuel s).isSome = true ∧ (funcdecl fuel s).isSome = true ∧
      (funcpar fuel s).isSome = true ∧ (block fuel s).isSome = true ∧
      (statlist fuel s).isSome = true) ∧
    (∀ fuel, 9 * s.length + 9 ≤ fuel →
      (expr fuel s).isSome = true ∧ (sum fuel s).isSome = true ∧
      (product fuel s).isSome = true ∧ (unary fuel s).isSome = true ∧
      (atom fuel s).isSome = true ∧ (paren fuel s).isSome = true ∧
      (funccall fuel s).isSome = true ∧ (funcargs fuel s).isSome = true) ∧
    (∀ fuel s',
      (∀ node, funcdecl fuel s = some (some node, s') → s'.length < s.length) ∧
      (∀ e, unary fuel s = some (some e, s') → s'.length < s.length) ∧
      (∀ e, atom fuel s = some (some e, s') → s'.length < s.length) ∧
      (∀ e, funccall fuel s = some (some e, s') → s'.length < s.length) ∧
      (∀ e, product fuel s = some (some e, s') → s'.length < s.length) ∧
      (∀ e, expr fuel s = some (some e, s') → s'.length < s.length)) ∧
    (statement s).1 = none ∧
    (∀ parameters,
      (∃ r, ∀ fuel, funcparLoop (fuel + 1) parameters s = some r) ∨
      (∃ parameters1 s7, s7.length < s.length ∧
        ∀ fuel, funcparLoop (fuel + 1) parameters s = funcparLoop fuel parameters1 s7)) := by
  refine ⟨?_, ?_, ?_, ?_, ifstat_absent s, fun parameters => funcparLoop_turn parameters s⟩
  · exact Option.isSome_iff_exists.mp (parse_returns (String.mk s))
  · intro fuel hf
    obtain ⟨k, rfl⟩ : ∃ k, fuel = k + 1 := ⟨fuel - 1, by omega⟩
    refine ⟨unitLoop_returns _ none s hf, funcdecl_returns _ s hf, funcpar_returns _ s hf,
      block_returns k s, ?_⟩
    simp only [statlist, statlistLoop_succ]
    rfl
  · intro fuel hf
    have h := expr_family_returns_level s.length s (Nat.le_refl _) fuel
    exact ⟨h.2.2.2.2.2.2.2.1 (by omega), h.2.2.2.2.2.2.1 (by omega), h.2.2.2.2.1 (by omega),
      h.2.2.1 (by omega), h.2.1 (by omega), (h.1 (by omega)).1, (h.1 (by omega)).2.1,
      (h.1 (by omega)).2.2⟩
  · intro fuel s'
    refine ⟨fun node h => funcdecl_progress fuel s s' node h, fun e h => unary_progress h,
      fun e h => atom_progress h, fun e h => funccall_progress h, ?_, ?_⟩
    · intro e h
      have hx := (product_absent _ _ _ _).1 h
      cases hx
    · intro e h
      have hx := expr_absent h
      cases hx

/-- Instances of C20: `parse` returns on the truncated `func f(`, and `unary`
returns on `-(-x` with the budget 45, where the inner productions run out of
input. -/
theorem parser_terminates_witness :
    (∃ r, AnacondaParser.parse "func f(" = some r) ∧
    (unary 45 "-(-x".data).isSome = true ∧
    (expr 45 "-(-x".data).isSome = true :=
  ⟨(parser_terminates "func f(".data).1,
    ((parser_terminates "-(-x".data).2.2.1 45 (by decide)).2.2.2.1,
    ((parser_terminates "-(-x".data).2.2.1 45 (by decide)).1⟩


/-! ## The cursor after a failed production (C3) -/

theorem expectStr_false {t : String} {s s' : Cursor} (h : expectStr t s = (false, s')) :
    s' = s := by
  unfold expectStr at h
  split at h <;> cases h
  rfl

theorem id_empty_cursor (s : Cursor) (h : (AnacondaParser.id s).1 = "") :
    (AnacondaParser.id s).2 = s := by
  have h1 := id_data_append s
  rw [h] at h1
  exact h1

theorem type_absent_cursor {s s' : Cursor} (h : AnacondaParser.type s = (none, s')) :
    s' = (whitespace s).2 := by
  simp only [AnacondaParser.type] at h
  repeat' split at h
  all_goals first | cases h | skip
  rw [id_empty_cursor _ (by assumption)]
  exact expectStr_false (by assumption)

theorem variable_absent_cursor {s s' : Cursor} (h : variable_ s = (none, s')) :
    s' = (whitespace s).2 := by
  simp only [variable_] at h
  repeat' split at h
  all_goals first | cases h | skip
  exact id_empty_cursor _ (by assumption)

/-- When `atom` fails, the cursor is where `variable` left it from the saved
position: what `paren` and `funccall` consumed before failing is given back. -/
theorem atom_absent_cursor {fuel : Nat} {s s' : Cursor} (h : atom fuel s = some (none, s')) :
    s' = (whitespace s).2 := by
  cases fuel with
  | zero => simp [atom] at h
  | succ fuel =>
    simp only [atom, save, restore] at h
    repeat' split at h
    all_goals first | cases h | skip
    exact variable_absent_cursor (by assumption)

theorem type_after_blanks (s : Cursor) : (AnacondaParser.type s).2 <:+ (whitespace s).2 := by
  simp only [AnacondaParser.type]
  repeat' split
  all_goals
    repeat (first
      | exact List.suffix_refl _
      | refine step_id ?_
      | refine step_expectStr (by assumption) ?_)

theorem ifstat_after_blanks (s : Cursor) : (ifstat s).2 <:+ (whitespace s).2 := by
  simp only [ifstat]
  repeat' split
  all_goals
    repeat (first
      | exact List.suffix_refl _
      | refine step_expectStr (by assumption) ?_
      | refine step_whitespace_eq (by assumption) ?_)

theorem variable_after_blanks (s : Cursor) : (variable_ s).2 <:+ (whitespace s).2 := by
  simp only [variable_]
  repeat' split
  all_goals
    repeat (first
      | exact List.suffix_refl _
      | refine step_id ?_)

theorem variable_after_blanks_eq {s s' : Cursor} {r : Option ExpressionNode}
    (h : variable_ s = (r, s')) : s' <:+ (whitespace s).2 := by
  have h1 := variable_after_blanks s
  rwa [h] at h1

theorem block_after_blanks (fuel : Nat) (s s' : Cursor) (r : Option BlockNode)
    (h : block fuel s = some (r, s')) : s' <:+ (whitespace s).2 := by
  simp only [block] at h
  repeat' split at h
  all_goals first | cases h | skip
  all_goals
    repeat (first
      | exact List.suffix_refl _
      | refine step_whitespace ?_
      | refine step_id ?_
      | refine step_expectStr (by assumption) ?_
      | refine step_expect (by assumption) ?_
      | refine step_whitespace_eq (by assumption) ?_
      | refine Advances.step (statlist_advances fuel) (by assumption) ?_)

theorem funcpar_after_blanks (fuel : Nat) (s s' : Cursor) (r : Option FunctionParameters)
    (h : funcpar fuel s = some (r, s')) : s' <:+ (whitespace s).2 := by
  simp only [funcpar] at h
  repeat' split at h
  all_goals first | cases h | skip
  all_goals
    repeat (first
      | exact List.suffix_refl _
      | refine step_whitespace ?_
      | refine step_id ?_
      | refine step_expectStr (by assumption) ?_
      | refine step_expect (by assumption) ?_
      | refine step_whitespace_eq (by assumption) ?_
      | refine Advances.step (funcparLoop_advances fuel _) (by assumption) ?_)

theorem funcdecl_after_blanks (fuel : Nat) (s s' : Cursor) (r : Option StatementNode)
    (h : funcdecl fuel s = some (r, s')) : s' <:+ (whitespace s).2 := by
  simp only [funcdecl] at h
  repeat' split at h
  all_goals first | cases h | skip
  all_goals
    repeat (first
      | exact List.suffix_refl _
      | refine step_whitespace ?_
      | refine step_id ?_
      | refine step_expectStr (by assumption) ?_
      | refine step_expect (by assumption) ?_
      | refine step_whitespace_eq (by assumption) ?_
      | refine step_type_eq (by assumption) ?_
      | refine step_rtype (by assumption) ?_
      | refine Advances.step (funcpar_advances fuel) (by assumption) ?_
      | refine Advances.step (block_advances fuel) (by assumption) ?_)

theorem paren_after_blanks (fuel : Nat) (s s' : Cursor) (r : Option ExpressionNode)
    (h : paren fuel s = some (r, s')) : s' <:+ (whitespace s).2 := by
  cases fuel with
  | zero => simp [paren] at h
  | succ fuel =>
    simp only [paren] at h
    repeat' split at h
    all_goals first | cases h | skip
    all_goals
      repeat (first
        | exact List.suffix_refl _
        | refine step_whitespace ?_
        | refine step_id ?_
        | refine step_expectStr (by assumption) ?_
        | refine step_expect (by assumption) ?_
        | refine step_whitespace_eq (by assumption) ?_
        | refine Advances.step (expr_family_advances fuel).1 (by assumption) ?_)

theorem funcargs_after_blanks (fuel : Nat) (s s' : Cursor) (r : Option (List ExpressionNode))
    (h : funcargs fuel s = some (r, s')) : s' <:+ (whitespace s).2 := by
  cases fuel with
  | zero => simp [funcargs] at h
  | succ fuel =>
    simp only [funcargs] at h
    repeat' split at h
    all_goals first | cases h | skip
    all_goals
      repeat (first
        | exact List.suffix_refl _
        | refine step_whitespace ?_
        | refine step_id ?_
        | refine step_expectStr (by assumption) ?_
        | refine step_expect (by assumption) ?_
        | refine step_whitespace_eq (by assumption) ?_
        | refine Advances.step ((expr_family_advances fuel).2.2.2.2.2.2.2.2.2.2 _) (by assumption) ?_)

theorem funccall_after_blanks (fuel : Nat) (s s' : Cursor) (r : Option ExpressionNode)
    (h : funccall fuel s = some (r, s')) : s' <:+ (whitespace s).2 := by
  cases fuel with
  | zero => simp [funccall] at h
  | succ fuel =>
    simp only [funccall] at h
    repeat' split at h
    all_goals first | cases h | skip
    all_goals
      repeat (first
        | exact List.suffix_refl _
        | refine step_whitespace ?_
        | refine step_id ?_
        | refine step_expectStr (by assumption) ?_
        | refine step_expect (by assumption) ?_
        | refine step_whitespace_eq (by assumption) ?_
        | refine Advances.step (expr_family_advances fuel).2.2.2.2.2.2.2.2.2.1 (by assumption) ?_)

theorem unary_after_blanks (fuel : Nat) (s s' : Cursor) (r : Option ExpressionNode)
    (h : unary fuel s = some (r, s')) : s' <:+ (whitespace s).2 := by
  cases fuel with
  | zero => simp [unary] at h
  | succ fuel =>
    simp only [unary] at h
    repeat' split at h
    all_goals first | cases h | skip
    all_goals
      repeat (first
        | exact List.suffix_refl _
        | refine step_whitespace ?_
        | refine step_id ?_
        | refine step_expectStr (by assumption) ?_
        | refine step_expect (by assumption) ?_
        | refine step_whitespace_eq (by assumption) ?_
        | refine Advances.step (expr_family_advances fuel).2.2.2.2.2.1 (by assumption) ?_
        | refine Advances.step (expr_family_advances fuel).2.2.2.2.2.2.1 (by assumption) ?_)

theorem atom_after_blanks (fuel : Nat) (s s' : Cursor) (r : Option ExpressionNode)
    (h : atom fuel s = some (r, s')) : s' <:+ (whitespace s).2 := by
  cases fuel with
  | zero => simp [atom] at h
  | succ fuel =>
    simp only [atom, save, restore] at h
    repeat' split at h
    all_goals first | cases h | skip
    all_goals
      repeat (first
        | exact List.suffix_refl _
        | refine step_whitespace ?_
        | refine step_id ?_
        | refine step_expectStr (by assumption) ?_
        | refine step_expect (by assumption) ?_
        | refine step_whitespace_eq (by assumption) ?_
        | exact paren_after_blanks _ _ _ _ (by assumption)
        | exact funccall_after_blanks _ _ _ _ (by assumption)
        | exact variable_after_blanks_eq (by assumption))

theorem product_after_blanks (fuel : Nat) (s s' : Cursor) (r : Option ExpressionNode)
    (h : product fuel s = some (r, s')) : s' <:+ (whitespace s).2 := by
  cases fuel with
  | zero => simp [product] at h
  | succ fuel =>
    simp only [product] at h
    repeat' split at h
    all_goals first | cases h | skip
    all_goals
      repeat (first
        | exact List.suffix_refl _
        | refine step_whitespace ?_
        | refine step_id ?_
        | refine step_expectStr (by assumption) ?_
        | refine step_expect (by assumption) ?_
        | refine step_whitespace_eq (by assumption) ?_
        | refine Advances.step ((expr_family_advances fuel).2.2.2.2.1 _) (by assumption) ?_
        | exact unary_after_blanks _ _ _ _ (by assumption))

theorem sum_after_blanks (fuel : Nat) (s s' : Cursor) (r : Option ExpressionNode)
    (h : sum fuel s = some (r, s')) : s' <:+ (whitespace s).2 := by
  cases fuel with
  | zero => simp [sum] at h
  | succ fuel =>
    simp only [sum] at h
    repeat' split at h
    all_goals first | cases h | skip
    all_goals
      repeat (first
        | exact List.suffix_refl _
        | refine step_whitespace ?_
        | refine step_id ?_
        | refine step_expectStr (by assumption) ?_
        | refine step_expect (by assumption) ?_
        | refine step_whitespace_eq (by assumption) ?_
        | refine Advances.step ((expr_family_advances fuel).2.2.1 _) (by assumption) ?_
        | exact product_after_blanks _ _ _ _ (by assumption))

theorem outcome_absent {α : Type} {r : Option α × Cursor} {s' : Cursor}
    (h : outcome r = (false, s')) : r = (none, s') := by
  obtain ⟨a, c⟩ := r
  cases a with
  | none =>
    simp only [outcome, Prod.mk.injEq] at h
    rw [h.2]
  | some v => simp [outcome] at h

theorem run_absent {α : Type} {x : Option (Option α × Cursor)} {s' : Cursor}
    (h : x.map outcome = some (false, s')) : x = some (none, s') := by
  cases x with
  | none => simp at h
  | some r =>
    simp only [Option.map_some', Option.some.injEq] at h
    rw [outcome_absent h]

/-- C3, as the code has it. For every production and every parser state, if
the production returns the absent result then the cursor after the call is
the cursor before the call moved past its leading blanks, or a later position.
For `type`, `variable` and `atom` it is exactly the cursor before the call
moved past its leading blanks: `atom` sets the cursor back to the saved
position before it tries `funccall` and before it tries `variable`, so what
its failed alternatives consumed is given back. -/
theorem failed_production_cursor_after (P : Production) (fuel : Nat) (s s' : Cursor)
    (h : P.run fuel s = some (false, s')) :
    s' <:+ (whitespace s).2 ∧
    ((P = Production.type ∨ P = Production.variable_ ∨ P = Production.atom) →
      s' = (whitespace s).2) := by
  cases P
  case type =>
    have h1 := outcome_absent (Option.some.inj h)
    have h2 := type_after_blanks s
    rw [h1] at h2
    exact ⟨h2, fun _ => type_absent_cursor h1⟩
  case variable_ =>
    have h1 := outcome_absent (Option.some.inj h)
    exact ⟨variable_after_blanks_eq h1, fun _ => variable_absent_cursor h1⟩
  case atom =>
    have h1 := run_absent h
    exact ⟨atom_after_blanks _ _ _ _ h1, fun _ => atom_absent_cursor h1⟩
  case statement =>
    have h1 := outcome_absent (Option.some.inj h)
    have h2 := ifstat_after_blanks s
    rw [show ifstat s = statement s from rfl, h1] at h2
    exact ⟨h2, fun hP => by rcases hP with hP | hP | hP <;> cases hP⟩
  case ifstat =>
    have h1 := outcome_absent (Option.some.inj h)
    have h2 := ifstat_after_blanks s
    rw [h1] at h2
    exact ⟨h2, fun hP => by rcases hP with hP | hP | hP <;> cases hP⟩
  case funcdecl =>
    exact ⟨funcdecl_after_blanks _ _ _ _ (run_absent h),
      fun hP => by rcases hP with hP | hP | hP <;> cases hP⟩
  case funcpar =>
    exact ⟨funcpar_after_blanks _ _ _ _ (run_absent h),
      fun hP => by rcases hP with hP | hP | hP <;> cases hP⟩
  case block =>
    exact ⟨block_after_blanks _ _ _ _ (run_absent h),
      fun hP => by rcases hP with hP | hP | hP <;> cases hP⟩
  case sum =>
    exact ⟨sum_after_blanks _ _ _ _ (run_absent h),
      fun hP => by rcases hP with hP | hP | hP <;> cases hP⟩
  case product =>
    exact ⟨product_after_blanks _ _ _ _ (run_absent h),
      fun hP => by rcases hP with hP | hP | hP <;> cases hP⟩
  case unary =>
    exact ⟨unary_after_blanks _ _ _ _ (run_absent h),
      fun hP => by rcases hP with hP | hP | hP <;> cases hP⟩
  case paren =>
    exact ⟨paren_after_blanks _ _ _ _ (run_absent h),
      fun hP => by rcases hP with hP | hP | hP <;> cases hP⟩
  case funccall =>
    exact ⟨funccall_after_blanks _ _ _ _ (run_absent h),
      fun hP => by rcases hP with hP | hP | hP <;> cases hP⟩
  case funcargs =>
    exact ⟨funcargs_after_blanks _ _ _ _ (run_absent h),
      fun hP => by rcases hP with hP | hP | hP <;> cases hP⟩

/-- An instance of the amended C3: on `(x` the alternative `paren` fails with
the cursor at the end of the input, and `atom` fails with the cursor back at
`(x`, the cursor before the call. -/
theorem failed_production_cursor_after_witness :
    Production.run Production.paren 11 "(x".data = some (false, []) ∧
    Production.run Production.atom 12 "(x".data = some (false, "(x".data) ∧
    "(x".data <:+ (whitespace "(x".data).2 ∧
    ((Production.atom = Production.type ∨ Production.atom = Production.variable_ ∨
        Production.atom = Production.atom) →
      "(x".data = (whitespace "(x".data).2) :=
  ⟨rfl, rfl, failed_production_cursor_after Production.atom 12 "(x".data "(x".data rfl⟩

/-- C3 as stated fails, for each of the productions: it returns the absent
result and the cursor after the call is not the cursor before the call. For
`type`, `variable` and `atom` the difference is the leading blank; the other
productions have consumed text of an input that starts with no blank. -/
theorem failed_production_moves_cursor :
    (Production.run Production.type 0 " 1".data = some (false, "1".data) ∧
      "1".data ≠ " 1".data) ∧
    (Production.run Production.variable_ 0 " 1".data = some (false, "1".data) ∧
      "1".data ≠ " 1".data) ∧
    (Production.run Production.atom 12 " 1".data = some (false, "1".data) ∧
      "1".data ≠ " 1".data) ∧
    (Production.run Production.statement 0 "if x".data = some (false, "x".data) ∧
      "x".data ≠ "if x".data) ∧
    (Production.run Production.ifstat 0 "if x".data = some (false, "x".data) ∧
      "x".data ≠ "if x".data) ∧
    (Production.run Production.funcdecl 1 "func f(".data = some (false, []) ∧
      ([] : Cursor) ≠ "func f(".data) ∧
    (Production.run Production.funcpar 1 "(".data = some (false, []) ∧
      ([] : Cursor) ≠ "(".data) ∧
    (Production.run Production.block 1 "\x7b".data = some (false, []) ∧
      ([] : Cursor) ≠ "\x7b".data) ∧
    (Production.run Production.sum 12 "x".data = some (false, []) ∧
      ([] : Cursor) ≠ "x".data) ∧
    (Production.run Production.product 12 "x".data = some (false, []) ∧
      ([] : Cursor) ≠ "x".data) ∧
    (Production.run Production.unary 12 "-x".data = some (false, []) ∧
      ([] : Cursor) ≠ "-x".data) ∧
    (Production.run Production.paren 12 "(x".data = some (false, []) ∧
      ([] : Cursor) ≠ "(x".data) ∧
    (Production.run Production.funccall 12 "f".data = some (false, []) ∧
      ([] : Cursor) ≠ "f".data) ∧
    (Production.run Production.funcargs 12 "(".data = some (false, []) ∧
      ([] : Cursor) ≠ "(".data) :=
  ⟨⟨rfl, by decide⟩, ⟨rfl, by decide⟩, ⟨rfl, by decide⟩, ⟨rfl, by decide⟩, ⟨rfl, by decide⟩,
    ⟨rfl, by decide⟩, ⟨rfl, by decide⟩, ⟨rfl, by decide⟩, ⟨rfl, by decide⟩, ⟨rfl, by decide⟩,
    ⟨rfl, by decide⟩, ⟨rfl, by decide⟩, ⟨rfl, by decide⟩, ⟨rfl, by decide⟩⟩

end Anaconda
